import Mathlib

/-!
snowflake: a persistent host UUID behind a time-bounded cache

A shallow embedding of `snowflake.go` (package `snowflake`) and the properties of
its codec (`Encode`, `Decode`, `Gen`) and of its cached file access (`Get`,
`Read`, `Make`, `WriteNew`, `InvalidateCache`).

Conventions of the embedding.

* A Go `byte` is a `Fin 256`; a Go `string` or `[]byte` is a list of bytes.
* `UUID` (`[16]byte`) is a vector of sixteen bytes.
* A Go result `(*UUID, error)` is a pair of options, so that the pair with both
  components set (which `Decode` has a `return` for) can be written down.
* `time.Time` is an integer count of nanoseconds; each call of `time.Now()` is
  an argument of the operation that makes it.
* What the file system answers for each path and the process-wide cache pointer
  `current` make up a `World`; every operation takes a world and returns the
  world it leaves.
* The random bytes `rand.Read` draws are an argument of `Gen`.
-/

namespace Snowflake

/-! ## Bytes and strings -/

/-- A Go `byte`. -/
abbrev Byte := Fin 256

/-- A Go `string` (or `[]byte`): a sequence of bytes, not necessarily UTF-8. -/
abbrev GoString := List Byte

/-- The bytes of an ASCII literal (each character is taken as its code point, so
this is the Go string only for ASCII text, which is all it is used for). -/
def bytesOf (s : String) : GoString :=
  s.toList.map (fun c => Fin.ofNat c.toNat)

/-- Go slice expression `s[l:r]`. -/
def slice {α : Type} (s : List α) (l r : Nat) : List α :=
  (s.take r).drop l

/-! ## The parts of Go's `strings` package that consult Unicode tables

`strings.TrimSpace` and `strings.ToLower` work bytewise on ASCII input and go
through `unicode.IsSpace` / `unicode.ToLower` as soon as they meet a byte
`>= utf8.RuneSelf` (0x80). Those table-driven paths are not part of this
repository; they are taken as parameters, with nothing assumed about them. -/

/-- The Unicode-table-driven library calls `TrimSpace` and `ToLower` fall back to. -/
structure Unicode where
  /-- Stands for `strings.TrimFunc(s, unicode.IsSpace)`. -/
  trimFunc : GoString → GoString
  /-- Stands for `strings.TrimRightFunc(s, unicode.IsSpace)`. -/
  trimRightFunc : GoString → GoString
  /-- Stands for `strings.Map(unicode.ToLower, s)`. -/
  mapToLower : GoString → GoString

/-- An instance for evaluating the model on ASCII inputs, on which no field is
consulted: each field returns its argument. -/
def Unicode.inert : Unicode := ⟨id, id, id⟩

/-- The constant `utf8.RuneSelf`: bytes below it are single-byte runes. -/
def runeSelf : Byte := 0x80

/-- The table `asciiSpace` of package `strings`: tab, LF, VT, FF, CR, space. -/
def asciiSpace (c : Byte) : Bool :=
  c == 9 || c == 10 || c == 11 || c == 12 || c == 13 || c == 32

/-- The second loop of `strings.TrimSpace`, run on the reversed remainder
`s[start:stop]`: `stop` moves left over ASCII space; a byte `>= RuneSelf` hands
`s[start:stop]` to `TrimRightFunc`. -/
def trimSpaceStop (U : Unicode) : GoString → GoString
  | [] => []
  | c :: r =>
    if c ≥ runeSelf then U.trimRightFunc (c :: r).reverse
    else if asciiSpace c then trimSpaceStop U r
    else (c :: r).reverse

/-- Go `strings.TrimSpace`: `start` moves right over ASCII space; a byte
`>= RuneSelf` hands `s[start:]` to `TrimFunc`; then the second loop trims the end. -/
def TrimSpace (U : Unicode) : GoString → GoString
  | [] => []
  | c :: s =>
    if c ≥ runeSelf then U.trimFunc (c :: s)
    else if asciiSpace c then TrimSpace U s
    else trimSpaceStop U (c :: s).reverse

/-- ASCII upper-case test `'A' <= c && c <= 'Z'`. -/
def isUpperAscii (c : Byte) : Bool := decide (65 ≤ c ∧ c ≤ 90)

/-- Go `strings.ToLower`: an all-ASCII string is returned as is when it has no
upper-case letter and has `'a' - 'A'` added to each upper-case byte otherwise;
any other string goes through `Map(unicode.ToLower, s)`. -/
def ToLower (U : Unicode) (s : GoString) : GoString :=
  if s.all (fun c => decide (c < runeSelf)) then
    if s.any isUpperAscii then s.map (fun c => if isUpperAscii c then c + 32 else c)
    else s
  else U.mapToLower s

/-! ## The compiled pattern `reMatch` -/

/-- One item of the pattern: a character class (a list of inclusive byte
ranges) repeated exactly `count` times. A literal is a one-point class. -/
structure Atom where
  ranges : List (Byte × Byte)
  count : Nat

/-- Whether a byte is in the class of an atom. -/
def Atom.accepts (a : Atom) (c : Byte) : Bool :=
  a.ranges.any (fun r => decide (r.1 ≤ c ∧ c ≤ r.2))

/-- The class `[a-f0-9]` repeated `n` times. -/
def hexClass (n : Nat) : Atom := ⟨[(97, 102), (48, 57)], n⟩

/-- The literal `-`. -/
def dash : Atom := ⟨[(45, 45)], 1⟩

/-- The pattern of `init`:
`^[a-f0-9]{8}-[a-f0-9]{4}-[a-f0-9]{4}-[a-f0-9]{4}-[a-f0-9]{12}$`. -/
def reMatch : List Atom :=
  [hexClass 8, dash, hexClass 4, dash, hexClass 4, dash, hexClass 4, dash, hexClass 12]

/-- Anchored match of a sequence of atoms: each atom consumes exactly `count`
bytes of its class, and `$` requires the end of the text. -/
def MatchString : List Atom → GoString → Bool
  | [], s => s.isEmpty
  | a :: rest, s =>
    (s.take a.count).length == a.count && (s.take a.count).all a.accepts
      && MatchString rest (s.drop a.count)

/-! ## `encoding/hex` and the `%x` verb -/

/-- The digits `fmt` uses for `%x`. -/
def ldigits : GoString := bytesOf "0123456789abcdef"

/-- Go `fmt.Sprintf("%x", b)` for a byte slice: `digits[c>>4], digits[c&0xF]`
for each byte. -/
def sprintfX (b : List Byte) : GoString :=
  b.flatMap (fun c => [ldigits.getD (c.val >>> 4) 0, ldigits.getD (c.val &&& 0xF) 0])

/-- The table `reverseHexTable` of `encoding/hex`: the value of a hex digit of
either case, `0xff` for any other byte. -/
def reverseHexTable (c : Byte) : Byte :=
  if 48 ≤ c ∧ c ≤ 57 then c - 48
  else if 97 ≤ c ∧ c ≤ 102 then c - 97 + 10
  else if 65 ≤ c ∧ c ≤ 70 then c - 65 + 10
  else 0xff

/-- The errors of `hex.Decode`. -/
inductive HexError where
  | invalidByte (c : Byte)
  | errLength
  deriving DecidableEq, Repr

/-- Go `hex.Decode(dst, src)`: the bytes written to `dst` before it stopped, and
the error it stopped with. -/
def hexDecode : GoString → List Byte × Option HexError
  | p :: q :: rest =>
    let a := reverseHexTable p
    let b := reverseHexTable q
    if a > 0x0f then ([], some (.invalidByte p))
    else if b > 0x0f then ([], some (.invalidByte q))
    else
      let r := hexDecode rest
      (((a <<< 4) ||| b) :: r.1, r.2)
  | [p] =>
    if reverseHexTable p > 0x0f then ([], some (.invalidByte p))
    else ([], some .errLength)
  | [] => ([], none)

/-! ## UUID, `Encode`, `Decode`, `Gen` -/

/-- The constant `UUIDHexLen`. -/
def UUIDHexLen : Nat := 36

/-- Go `type UUID [16]byte`. -/
abbrev UUID := Mathlib.Vector Byte 16

/-- The variable `zeroUUID`. -/
def zeroUUID : UUID := Mathlib.Vector.replicate 16 0

/-- Writing `src` into `dst` from index `l` on, as `hex.Decode` does with the
destination slice `dst[l:r]` (every row of `decoder` gives it a source of
`2 * (r - l)` bytes, so it never writes past `r`). -/
def UUID.store (dst : UUID) (l : Nat) (src : List Byte) : UUID :=
  Mathlib.Vector.ofFn (fun i => if l ≤ i.val then src.getD (i.val - l) (dst.get i) else dst.get i)

/-- Go `(*UUID).Encode`; a nil receiver stands for `zeroUUID`. -/
def Encode (u : Option UUID) : GoString :=
  let u := (u.getD zeroUUID).toList
  sprintfX (slice u 0 4) ++ bytesOf "-" ++ sprintfX (slice u 4 6) ++ bytesOf "-"
    ++ sprintfX (slice u 6 8) ++ bytesOf "-" ++ sprintfX (slice u 8 10) ++ bytesOf "-"
    ++ sprintfX (u.drop 10)

/-- The errors the package returns. -/
inductive Error where
  /-- Go `*os.PathError` with its `Op`, `Path` and an error number. -/
  | pathError (op : String) (path : GoString) (errno : Nat)
  /-- Go `io.EOF`. -/
  | eof
  /-- Go `fmt.Errorf("File '%s' is too small", fpath)`. -/
  | tooSmall (fpath : GoString)
  /-- Go `fmt.Errorf("Decode error: '%s' is not a valid UUID", uuidStr)`. -/
  | notValid (uuidStr : GoString)
  /-- Go `fmt.Errorf("Error while decoding '%s' of '%s': %v", seg, uuidStr, err)`. -/
  | hexFailed (seg uuidStr : GoString) (err : HexError)
  deriving DecidableEq, Repr

/-- One row of the table `decoder`. -/
structure Segment where
  bLeft : Nat
  bRight : Nat
  sLeft : Nat
  sRight : Nat

/-- The table `decoder`. -/
def decoder : List Segment :=
  [⟨0, 4, 0, 8⟩, ⟨4, 6, 9, 13⟩, ⟨6, 8, 14, 18⟩, ⟨8, 10, 19, 23⟩, ⟨10, 16, 24, 36⟩]

/-- A Go result `(*UUID, error)`. -/
abbrev Result := Option UUID × Option Error

/-- The loop of `Decode` over the rows of `decoder`, with its early return. -/
def decodeLoop (uuidStr : GoString) : List Segment → UUID → Result
  | [], res => (some res, none)
  | d :: ds, res =>
    let seg := slice uuidStr d.sLeft d.sRight
    let r := hexDecode seg
    match r.2 with
    | some err => (some (res.store d.bLeft r.1), some (.hexFailed seg uuidStr err))
    | none => decodeLoop uuidStr ds (res.store d.bLeft r.1)

/-- Go `Decode`. -/
def Decode (U : Unicode) (uuidStr : GoString) : Result :=
  let uuidStr := ToLower U (TrimSpace U uuidStr)
  if !MatchString reMatch uuidStr then (none, some (.notValid uuidStr))
  else decodeLoop uuidStr decoder zeroUUID

/-- Go `Gen`, as a function of the sixteen bytes `rand.Read` puts in `u`. -/
def Gen (rnd : UUID) : UUID :=
  let u := rnd
  let u := u.set 8 ((u.get 8 ||| 0x40) &&& 0x7F)
  let u := u.set 6 ((u.get 6 &&& 0x0F) ||| 0x40)
  u

/-! ## The file system and the cache -/

/-- The constant `DefaultSnowflakeFile`. -/
def DefaultSnowflakeFile : GoString := bytesOf "/etc/snowflake"

/-- The constant `ValidationTimePeriod`, `time.Minute * 5`, in nanoseconds. -/
def ValidationTimePeriod : Int := 60 * 1000000000 * 5

/-- Go `struct cache`. -/
structure cache where
  uuid : UUID
  filePath : GoString
  validationTime : Int

/-- The error number `ENOENT` (no such file or directory). -/
def ENOENT : Nat := 2

/-- What the file system answers for one path when it is opened and read. -/
inductive Node where
  /-- Go `os.Open` fails: `*os.PathError` with `Op == "open"` and this error
  number (`ENOENT` when nothing exists at the path). -/
  | openFails (errno : Nat)
  /-- Go `os.Open` succeeds and `f.Read` fails: `*os.PathError` with
  `Op == "read"` (a directory, for one). -/
  | readFails (errno : Nat)
  /-- A regular file with this content. -/
  | file (content : GoString)
  deriving DecidableEq

/-- The state the operations run in. -/
structure World where
  /-- The answer of the file system for each path. -/
  files : GoString → Node
  /-- The error number `os.Create` fails with at a path, if it fails there. -/
  createErr : GoString → Option Nat
  /-- How `f.WriteString` fails at a path, if it fails there: the number of
  bytes that reach the file, and the error number. -/
  writeErr : GoString → Option (Nat × Nat)
  /-- The variable `current`: nil, or a pointer to an immutable `cache`. -/
  current : Option cache

/-- Go `sfFilePath`. -/
def sfFilePath (args : List GoString) : GoString :=
  match args with
  | [] => DefaultSnowflakeFile
  | a :: _ => a

/-- Go `InvalidateCache`. -/
def InvalidateCache (w : World) : World :=
  { w with current := none }

/-- Go `Read`; `now` is its call of `time.Now()`. A regular file answers
`f.Read(data)` with `0, io.EOF` when it is empty and with its first
`min(len(data), size)` bytes otherwise. -/
def Read (U : Unicode) (w : World) (now : Int) (args : List GoString) : Result × World :=
  let fpath := sfFilePath args
  match w.files fpath with
  | .openFails errno => ((none, some (.pathError "open" fpath errno)), w)
  | .readFails errno => ((none, some (.pathError "read" fpath errno)), w)
  | .file content =>
    let data := content.take (UUIDHexLen + 8)
    let n := data.length
    if n = 0 then ((none, some .eof), w)
    else if n < UUIDHexLen then ((none, some (.tooSmall fpath)), w)
    else
      match Decode U data with
      | (some uuid, none) =>
        ((some uuid, none),
          { w with current := some ⟨uuid, fpath, now + ValidationTimePeriod⟩ })
      | r => (r, w)

/-- Go `Get`; `now` is its own call of `time.Now()` and `later` the one `Read`
makes when it is called. -/
def Get (U : Unicode) (w : World) (now later : Int) (args : List GoString) :
    Result × World :=
  let fpath := sfFilePath args
  match w.current with
  | none => Read U w later [fpath]
  | some cached =>
    if cached.filePath ≠ fpath ∨ cached.validationTime < now then Read U w later [fpath]
    else ((some cached.uuid, none), w)

/-- The file system after `os.Create` succeeded at `fname` and `content` reached
the file. `os.Create` opens with `O_RDWR|O_CREATE|O_TRUNC`, so the path then
names a file the process has open for reading and writing, holding what was
written; every other path answers as before. Devices and other special files
are not modelled. -/
def written (files : GoString → Node) (fname content : GoString) : GoString → Node :=
  fun p => if p = fname then .file content else files p

/-- Go `WriteNew`; `rnd` is what `rand.Read` draws in `Gen`. -/
def WriteNew (w : World) (rnd : UUID) (fname : GoString) : Option Error × World :=
  match w.createErr fname with
  | some errno => (some (.pathError "open" fname errno), w)
  | none =>
    let text := Encode (some (Gen rnd))
    match w.writeErr fname with
    | some (k, errno) =>
      (some (.pathError "write" fname errno),
        { w with files := written w.files fname (text.take k) })
    | none => (none, InvalidateCache { w with files := written w.files fname text })

/-- Go `Make`; `t1`, `t2` are the clock readings of its first `Get` and `t3`,
`t4` those of its second. -/
def Make (U : Unicode) (w : World) (rnd : UUID) (t1 t2 t3 t4 : Int)
    (args : List GoString) : Result × World :=
  let fpath := sfFilePath args
  match Get U w t1 t2 [fpath] with
  | ((u, none), w1) => ((u, none), w1)
  | ((_, some err), w1) =>
    match err with
    | .pathError op _ _ =>
      if op = "open" then
        match WriteNew w1 rnd fpath with
        | (none, w2) => Get U w2 t3 t4 [fpath]
        | (some err2, w2) => ((none, some err2), w2)
      else ((none, some err), w1)
    | _ => ((none, some err), w1)

/-! ## The vocabulary of the specification

The grammar, the digits and the digit values as the specification words them,
next to which the definitions above (taken from the source) are compared. -/

/-- A lower-case hex digit, `0-9a-f`. -/
def isLowerHex (c : Byte) : Prop := (48 ≤ c ∧ c ≤ 57) ∨ (97 ≤ c ∧ c ≤ 102)

instance (c : Byte) : Decidable (isLowerHex c) := by unfold isLowerHex; infer_instance

/-- The canonical grammar in the words of the specification: exactly 36
characters, `-` at indices 8, 13, 18 and 23, and a lower-case hex digit at
every other index. -/
def Canonical (s : GoString) : Prop :=
  s.length = 36 ∧
    ∀ i, i < 36 →
      if i = 8 ∨ i = 13 ∨ i = 18 ∨ i = 23 then s.getD i 0 = 45 else isLowerHex (s.getD i 0)

instance (s : GoString) : Decidable (Canonical s) := by unfold Canonical; infer_instance

/-- The lower-case hex digit of a value below sixteen: `'0' + n` or `'a' + (n - 10)`. -/
def lowerDigit (n : Nat) : Byte := if n < 10 then Fin.ofNat (48 + n) else Fin.ofNat (87 + n)

/-- The two-digit lower-case hex text of a byte. -/
def twoDigitHex (b : Byte) : GoString := [lowerDigit (b.val / 16), lowerDigit (b.val % 16)]

/-- The value of a lower-case hex digit: `c - '0'` for `0-9`, `c - 'a' + 10` for `a-f`. -/
def digitValue (c : Byte) : Nat :=
  if 48 ≤ c ∧ c ≤ 57 then c.val - 48 else if 97 ≤ c ∧ c ≤ 102 then c.val - 87 else 0

/-- The hex digits of a text: the text with its hyphens removed. -/
def hexDigits (s : GoString) : GoString := s.filter (fun c => c != 45)

/-! ## Auxiliary definitions of the proofs -/

/-- The high hex digit of a byte, as the `%x` verb prints it. -/
def hexHi (c : Byte) : Byte := ldigits.getD (c.val >>> 4) 0

/-- The low hex digit of a byte, as the `%x` verb prints it. -/
def hexLo (c : Byte) : Byte := ldigits.getD (c.val &&& 0xF) 0

/-- A byte of canonical text: a lower-case hex digit or `-`. -/
def isPlain (c : Byte) : Prop := isLowerHex c ∨ c = 45

instance (c : Byte) : Decidable (isPlain c) := by unfold isPlain; infer_instance

/-- The byte two hex digits stand for, as `hex.Decode` computes it. -/
def unhexPair (c d : Byte) : Byte := (reverseHexTable c <<< 4) ||| reverseHexTable d

/-- The bytes a text of hex digits stands for, two digits a byte. -/
def unhexPairs : GoString → List Byte
  | c :: d :: rest => unhexPair c d :: unhexPairs rest
  | _ => []

/-! ## Example data -/

/-- The identifier `uuid1` of the tests. -/
def uuid1 : UUID :=
  ⟨[0x72, 0x32, 0xc1, 0xc3, 0xf6, 0xd1, 0x4a, 0xec, 0xbe, 0xdd, 0xc7, 0xe4, 0xc1, 0x0d, 0xc8, 0xd3],
    rfl⟩

/-- The text `uuidStr1` of the tests. -/
def uuidStr1 : GoString := bytesOf "7232c1c3-f6d1-4aec-bedd-c7e4c10dc8d3"

/-- The text `uuidStr1` in upper case between white space. -/
def uuidStr1Upper : GoString := bytesOf "  7232C1C3-F6D1-4AEC-BEDD-C7E4C10DC8D3\n"

/-- A path used in the examples. -/
def examplePath : GoString := bytesOf "/tmp/snowflake"

/-- A world with one regular file, at `examplePath`, and the given cache. -/
def oneFile (content : GoString) (cur : Option cache) : World :=
  { files := fun p => if p = examplePath then .file content else .openFails ENOENT
    createErr := fun _ => none
    writeErr := fun _ => none
    current := cur }

/-- A world with no file at all and the given cache. -/
def noFile (cur : Option cache) : World :=
  { files := fun _ => .openFails ENOENT
    createErr := fun _ => none
    writeErr := fun _ => none
    current := cur }

/-- A cache entry for `examplePath` holding `uuid1` and expiring at instant 10. -/
def cachedUntil10 : cache := ⟨uuid1, examplePath, 10⟩

/-! ## Vocabulary for the cached operations -/

/-- The file at `p` loads to `u`: it is a regular file of at least 36 bytes
whose first 44 bytes decode to `u` (what `Read` needs in order to succeed). -/
def Loads (U : Unicode) (w : World) (p : GoString) (u : UUID) : Prop :=
  ∃ content, w.files p = .file content ∧ 36 ≤ content.length ∧
    Decode U (content.take 44) = (some u, none)

/-- The cache agrees with the file system: a snapshot in the slot names a path
whose file loads to the snapshot's identifier. -/
def Coherent (U : Unicode) (w : World) : Prop :=
  ∀ c, w.current = some c → Loads U w c.filePath c.uuid

/-- `Get` finds nothing to answer from at clock reading `now`: the slot is
empty, or holds another path, or its entry expired before `now`. -/
def Misses (w : World) (fpath : GoString) (now : Int) : Prop :=
  w.current = none ∨
    ∃ c, w.current = some c ∧ (c.filePath ≠ fpath ∨ c.validationTime < now)

/-- One call of an exported operation, with the clock readings and random
bytes it consumes. -/
inductive Op where
  | get (now later : Int) (args : List GoString)
  | read (now : Int) (args : List GoString)
  | make (rnd : UUID) (t1 t2 t3 t4 : Int) (args : List GoString)
  | writeNew (rnd : UUID) (fname : GoString)
  | invalidateCache

/-- The world an operation leaves. -/
def Op.run (U : Unicode) (w : World) : Op → World
  | .get now later args => (Get U w now later args).2
  | .read now args => (Read U w now args).2
  | .make rnd t1 t2 t3 t4 args => (Make U w rnd t1 t2 t3 t4 args).2
  | .writeNew rnd fname => (WriteNew w rnd fname).2
  | .invalidateCache => InvalidateCache w

/-- The world a sequence of operations leaves. -/
def runOps (U : Unicode) (w : World) (ops : List Op) : World :=
  ops.foldl (Op.run U) w

/-- The error number `EACCES` (permission denied). -/
def EACCES : Nat := 13

/-- The error number `EISDIR` (is a directory). -/
def EISDIR : Nat := 21

/-- The error number `EMFILE` (too many open files). -/
def EMFILE : Nat := 24

/-- A world in which `examplePath` cannot be opened, with error number `errno`,
`os.Create` there answers `create`, and the slot holds `cur`. -/
def blocked (errno : Nat) (create : Option Nat) (cur : Option cache) : World :=
  { files := fun _ => .openFails errno
    createErr := fun _ => create
    writeErr := fun _ => none
    current := cur }

/-- After the call the slot holds `A` for `fpath` and the file at `fpath` loads to `A`. -/
def Settled (U : Unicode) (w : World) (fpath : GoString) (A : UUID) : Prop :=
  Loads U w fpath A ∧ ∃ c, w.current = some c ∧ c.uuid = A ∧ c.filePath = fpath

/-! ## Concurrent calls of `Get`

A call of `Get(fpath)` touches the shared pointer `current` twice at most: one
`atomic.LoadPointer`, and, on a miss, the one `atomic.StorePointer` at the end of
`Read`. Everything between the two is local to the call or reads the file. An
interleaving of calls is a sequence of such atomic steps. -/

/-- Where one call of `Get(fpath)` stands. -/
inductive Call where
  /-- Go `atomic.LoadPointer` has not run yet. -/
  | start
  /-- The slot was loaded and did not answer; `Read` has not stored yet. -/
  | missed
  /-- The call returned. -/
  | returned (r : Result)

/-- The next atomic step of a call, at clock reading `t`: the load and the test
of `Get`, or the `Read` of a call that missed, whose one effect on shared state
is its store. -/
def Call.step (U : Unicode) (fpath : GoString) (t : Int) (w : World) : Call → Call × World
  | .start =>
    match w.current with
    | none => (.missed, w)
    | some cached =>
      if cached.filePath ≠ fpath ∨ cached.validationTime < t then (.missed, w)
      else (.returned (some cached.uuid, none), w)
  | .missed => (.returned (Read U w t [fpath]).1, (Read U w t [fpath]).2)
  | .returned r => (.returned r, w)

/-- The shared world and the calls running against it. -/
structure Threads where
  world : World
  calls : Nat → Call

/-- All calls about to start in world `w`. -/
def Threads.init (w : World) : Threads := ⟨w, fun _ => .start⟩

/-- Call `i` takes its next atomic step at clock reading `t`. -/
def Threads.step (U : Unicode) (fpath : GoString) (s : Threads) (e : Nat × Int) : Threads :=
  ⟨((s.calls e.1).step U fpath e.2 s.world).2,
    Function.update s.calls e.1 ((s.calls e.1).step U fpath e.2 s.world).1⟩

/-- The state after a schedule: a sequence of (call, clock reading) steps. -/
def interleave (U : Unicode) (fpath : GoString) (s : Threads) (sched : List (Nat × Int)) :
    Threads :=
  sched.foldl (Threads.step U fpath) s

/-- How many steps of a schedule belong to call `i`. -/
def stepsOf (sched : List (Nat × Int)) (i : Nat) : Nat :=
  (sched.map Prod.fst).count i

/-- What every state of an interleaving satisfies, for a file that loads to `u`
in the initial world `w`. -/
def Safe (w : World) (fpath : GoString) (u : UUID) (s : Threads) : Prop :=
  s.world.files = w.files ∧
    (s.world.current = w.current ∨
      ∃ t : Int, s.world.current = some ⟨u, fpath, t + ValidationTimePeriod⟩) ∧
    ∀ i r, s.calls i = .returned r → r = (some u, none)

/-! ## Lemmas on hex digits -/

set_option maxRecDepth 100000

theorem hexHi_lower : ∀ b : Byte, isLowerHex (hexHi b) := by decide

theorem hexLo_lower : ∀ b : Byte, isLowerHex (hexLo b) := by decide

theorem hexHi_eq : ∀ b : Byte, hexHi b = lowerDigit (b.val / 16) := by decide

theorem hexLo_eq : ∀ b : Byte, hexLo b = lowerDigit (b.val % 16) := by decide

theorem hexHi_bne : ∀ b : Byte, (hexHi b != 45) = true := by decide

theorem hexLo_bne : ∀ b : Byte, (hexLo b != 45) = true := by decide

theorem unhexPair_hex : ∀ b : Byte, unhexPair (hexHi b) (hexLo b) = b := by decide

theorem reverseHexTable_le : ∀ c : Byte, isLowerHex c → ¬ reverseHexTable c > 0x0f := by
  decide

theorem isLowerHex_ne_dash : ∀ c : Byte, isLowerHex c → c ≠ 45 := by decide

theorem isPlain_ascii : ∀ c : Byte, isPlain c →
    ¬ c ≥ runeSelf ∧ asciiSpace c = false ∧ isUpperAscii c = false := by decide

theorem asciiSpace_ascii : ∀ c : Byte, asciiSpace c = true → ¬ c ≥ runeSelf := by decide

theorem reverseHexTable_lower : ∀ c : Byte, isLowerHex c →
    ∃ a : Fin 16, reverseHexTable c = Fin.ofNat a.val ∧ c = lowerDigit a.val ∧
      digitValue c = a.val := by decide

theorem hex_of_nibbles : ∀ a b : Fin 16,
    hexHi (((Fin.ofNat a.val : Byte) <<< 4) ||| Fin.ofNat b.val) = lowerDigit a.val ∧
    hexLo (((Fin.ofNat a.val : Byte) <<< 4) ||| Fin.ofNat b.val) = lowerDigit b.val ∧
    ((((Fin.ofNat a.val : Byte) <<< 4) ||| Fin.ofNat b.val) : Byte).val = 16 * a.val + b.val := by
  decide

theorem hexHi_unhexPair (c d : Byte) (hc : isLowerHex c) (hd : isLowerHex d) :
    hexHi (unhexPair c d) = c := by
  obtain ⟨a, ha, hca, -⟩ := reverseHexTable_lower c hc
  obtain ⟨b, hb, -, -⟩ := reverseHexTable_lower d hd
  rw [unhexPair, ha, hb, (hex_of_nibbles a b).1, ← hca]

theorem hexLo_unhexPair (c d : Byte) (hc : isLowerHex c) (hd : isLowerHex d) :
    hexLo (unhexPair c d) = d := by
  obtain ⟨a, ha, -, -⟩ := reverseHexTable_lower c hc
  obtain ⟨b, hb, hdb, -⟩ := reverseHexTable_lower d hd
  rw [unhexPair, ha, hb, (hex_of_nibbles a b).2.1, ← hdb]

theorem unhexPair_val (c d : Byte) (hc : isLowerHex c) (hd : isLowerHex d) :
    (unhexPair c d).val = 16 * digitValue c + digitValue d := by
  obtain ⟨a, ha, -, hva⟩ := reverseHexTable_lower c hc
  obtain ⟨b, hb, -, hvb⟩ := reverseHexTable_lower d hd
  rw [unhexPair, ha, hb, (hex_of_nibbles a b).2.2, hva, hvb]

theorem hexDecode_of_lower : ∀ l : GoString, (∀ c ∈ l, isLowerHex c) → l.length % 2 = 0 →
    hexDecode l = (unhexPairs l, none)
  | [], _, _ => rfl
  | [_], _, h => by simp at h
  | c :: d :: rest, hl, h => by
    have ih := hexDecode_of_lower rest (fun x hx => hl x (by simp [hx]))
      (by simp only [List.length_cons] at h; omega)
    have hc := reverseHexTable_le c (hl c (by simp))
    have hd := reverseHexTable_le d (hl d (by simp))
    simp only [hexDecode, hc, hd, if_false, ih, unhexPairs, unhexPair]

/-! ## Explicit forms of identifiers and canonical texts -/

theorem list16 {α : Type} (l : List α) (h : l.length = 16) :
    ∃ b0 b1 b2 b3 b4 b5 b6 b7 b8 b9 b10 b11 b12 b13 b14 b15,
      l = [b0, b1, b2, b3, b4, b5, b6, b7, b8, b9, b10, b11, b12, b13, b14, b15] := by
  iterate 16 (rcases l with _ | ⟨_, l⟩; · simp at h)
  rcases l with _ | ⟨_, l⟩
  · exact ⟨_, _, _, _, _, _, _, _, _, _, _, _, _, _, _, _, rfl⟩
  · simp at h

theorem list36 {α : Type} (l : List α) (h : l.length = 36) :
    ∃ c0 c1 c2 c3 c4 c5 c6 c7 c8 c9 c10 c11 c12 c13 c14 c15 c16 c17 c18 c19 c20 c21 c22 c23 c24
      c25 c26 c27 c28 c29 c30 c31 c32 c33 c34 c35,
      l = [c0, c1, c2, c3, c4, c5, c6, c7, c8, c9, c10, c11, c12, c13, c14, c15, c16, c17, c18,
        c19, c20, c21, c22, c23, c24, c25, c26, c27, c28, c29, c30, c31, c32, c33, c34, c35] := by
  iterate 36 (rcases l with _ | ⟨_, l⟩; · simp at h)
  rcases l with _ | ⟨_, l⟩
  · exact ⟨_, _, _, _, _, _, _, _, _, _, _, _, _, _, _, _, _, _, _, _, _, _, _, _, _, _, _, _, _, _,
      _, _, _, _, _, _, rfl⟩
  · simp at h

theorem Encode_explicit (b0 b1 b2 b3 b4 b5 b6 b7 b8 b9 b10 b11 b12 b13 b14 b15 : Byte)
    (h : [b0, b1, b2, b3, b4, b5, b6, b7, b8, b9, b10, b11, b12, b13, b14, b15].length = 16) :
    Encode (some ⟨[b0, b1, b2, b3, b4, b5, b6, b7, b8, b9, b10, b11, b12, b13, b14, b15], h⟩) =
      [hexHi b0, hexLo b0, hexHi b1, hexLo b1, hexHi b2, hexLo b2, hexHi b3, hexLo b3, 45,
        hexHi b4, hexLo b4, hexHi b5, hexLo b5, 45, hexHi b6, hexLo b6, hexHi b7, hexLo b7, 45,
        hexHi b8, hexLo b8, hexHi b9, hexLo b9, 45, hexHi b10, hexLo b10, hexHi b11, hexLo b11,
        hexHi b12, hexLo b12, hexHi b13, hexLo b13, hexHi b14, hexLo b14, hexHi b15,
        hexLo b15] := rfl

theorem Canonical_explicit (c0 c1 c2 c3 c4 c5 c6 c7 c8 c9 c10 c11 c12 c13 c14 c15 c16 c17 c18 c19 c20 c21 c22 c23 c24
      c25 c26 c27 c28 c29 c30 c31 c32 c33 c34 c35 : Byte) :
    Canonical [c0, c1, c2, c3, c4, c5, c6, c7, c8, c9, c10, c11, c12, c13, c14, c15, c16, c17, c18,
        c19, c20, c21, c22, c23, c24, c25, c26, c27, c28, c29, c30, c31, c32, c33, c34, c35] ↔
      isLowerHex c0 ∧ isLowerHex c1 ∧ isLowerHex c2 ∧ isLowerHex c3 ∧ isLowerHex c4 ∧
        isLowerHex c5 ∧ isLowerHex c6 ∧ isLowerHex c7 ∧ c8 = 45 ∧ isLowerHex c9 ∧ isLowerHex c10
        ∧ isLowerHex c11 ∧ isLowerHex c12 ∧ c13 = 45 ∧ isLowerHex c14 ∧ isLowerHex c15 ∧
        isLowerHex c16 ∧ isLowerHex c17 ∧ c18 = 45 ∧ isLowerHex c19 ∧ isLowerHex c20 ∧
        isLowerHex c21 ∧ isLowerHex c22 ∧ c23 = 45 ∧ isLowerHex c24 ∧ isLowerHex c25 ∧
        isLowerHex c26 ∧ isLowerHex c27 ∧ isLowerHex c28 ∧ isLowerHex c29 ∧ isLowerHex c30 ∧
        isLowerHex c31 ∧ isLowerHex c32 ∧ isLowerHex c33 ∧ isLowerHex c34 ∧ isLowerHex c35 := by
  constructor
  · rintro ⟨-, H⟩
    exact
     ⟨(by simpa using H 0 (by decide)),
      (by simpa using H 1 (by decide)),
      (by simpa using H 2 (by decide)),
      (by simpa using H 3 (by decide)),
      (by simpa using H 4 (by decide)),
      (by simpa using H 5 (by decide)),
      (by simpa using H 6 (by decide)),
      (by simpa using H 7 (by decide)),
      (by simpa using H 8 (by decide)),
      (by simpa using H 9 (by decide)),
      (by simpa using H 10 (by decide)),
      (by simpa using H 11 (by decide)),
      (by simpa using H 12 (by decide)),
      (by simpa using H 13 (by decide)),
      (by simpa using H 14 (by decide)),
      (by simpa using H 15 (by decide)),
      (by simpa using H 16 (by decide)),
      (by simpa using H 17 (by decide)),
      (by simpa using H 18 (by decide)),
      (by simpa using H 19 (by decide)),
      (by simpa using H 20 (by decide)),
      (by simpa using H 21 (by decide)),
      (by simpa using H 22 (by decide)),
      (by simpa using H 23 (by decide)),
      (by simpa using H 24 (by decide)),
      (by simpa using H 25 (by decide)),
      (by simpa using H 26 (by decide)),
      (by simpa using H 27 (by decide)),
      (by simpa using H 28 (by decide)),
      (by simpa using H 29 (by decide)),
      (by simpa using H 30 (by decide)),
      (by simpa using H 31 (by decide)),
      (by simpa using H 32 (by decide)),
      (by simpa using H 33 (by decide)),
      (by simpa using H 34 (by decide)),
      (by simpa using H 35 (by decide))⟩
  · rintro ⟨h0, h1, h2, h3, h4, h5, h6, h7, h8, h9, h10, h11, h12, h13, h14, h15, h16, h17, h18, h19,
      h20, h21, h22, h23, h24, h25, h26, h27, h28, h29, h30, h31, h32, h33, h34, h35⟩
    refine ⟨rfl, ?_⟩
    intro i hi
    interval_cases i <;> simpa

theorem encode_format (x : UUID) :
    Canonical (Encode (some x)) ∧
      hexDigits (Encode (some x)) = x.toList.flatMap twoDigitHex := by
  obtain ⟨l, hl⟩ := x
  obtain ⟨b0, b1, b2, b3, b4, b5, b6, b7, b8, b9, b10, b11, b12, b13, b14, b15, rfl⟩ :=
    list16 l hl
  rw [Encode_explicit]
  refine ⟨⟨rfl, ?_⟩, ?_⟩
  · intro i hi
    interval_cases i <;> simp [hexHi_lower, hexLo_lower]
  · simp only [hexDigits, List.filter_cons, hexHi_bne, hexLo_bne, if_true, List.filter_nil,
      show ((45 : Byte) != 45) = false from rfl, Bool.false_eq_true, if_false]
    simp [Mathlib.Vector.toList, twoDigitHex, hexHi_eq, hexLo_eq]

theorem Encode_length (x : UUID) : (Encode (some x)).length = 36 := (encode_format x).1.1

/-! ## Normalisation leaves canonical text alone -/

theorem trimSpaceStop_of_plain (U : Unicode) (r : GoString) (h : ∀ c ∈ r, isPlain c) :
    trimSpaceStop U r = r.reverse := by
  cases r with
  | nil => rfl
  | cons c r =>
    have hc := isPlain_ascii c (h c (List.mem_cons_self _ _))
    simp [trimSpaceStop, hc.1, hc.2.1]

theorem TrimSpace_of_plain (U : Unicode) (s : GoString) (h : ∀ c ∈ s, isPlain c) :
    TrimSpace U s = s := by
  cases s with
  | nil => rfl
  | cons c s =>
    have hc := isPlain_ascii c (h c (List.mem_cons_self _ _))
    have hr : ∀ d ∈ (c :: s).reverse, isPlain d := fun d hd => h d (List.mem_reverse.mp hd)
    simp only [TrimSpace, hc.1, hc.2.1, if_false, Bool.false_eq_true]
    rw [trimSpaceStop_of_plain U _ hr, List.reverse_reverse]

theorem ToLower_of_plain (U : Unicode) (s : GoString) (h : ∀ c ∈ s, isPlain c) :
    ToLower U s = s := by
  have h1 : s.all (fun c => decide (c < runeSelf)) = true := by
    rw [List.all_eq_true]
    intro c hc
    have := (isPlain_ascii c (h c hc)).1
    simpa using this
  have h2 : s.any isUpperAscii = false := by
    rw [List.any_eq_false]
    intro c hc
    simp [(isPlain_ascii c (h c hc)).2.2]
  simp [ToLower, h1, h2]

theorem Canonical_mem (s : GoString) (h : Canonical s) : ∀ c ∈ s, isPlain c := by
  intro c hc
  obtain ⟨i, hi, rfl⟩ := List.getElem_of_mem hc
  have := h.2 i (h.1 ▸ hi)
  rw [List.getD_eq_getElem _ _ hi] at this
  split at this
  · exact Or.inr this
  · exact Or.inl this

theorem normalize_of_canonical (U : Unicode) (s : GoString) (h : Canonical s) :
    ToLower U (TrimSpace U s) = s := by
  rw [TrimSpace_of_plain U s (Canonical_mem s h), ToLower_of_plain U s (Canonical_mem s h)]

theorem trimSpaceStop_space_append (U : Unicode) (sp r : GoString)
    (h : ∀ c ∈ sp, asciiSpace c = true) : trimSpaceStop U (sp ++ r) = trimSpaceStop U r := by
  induction sp with
  | nil => rfl
  | cons d sp ih =>
    have hd := h d (List.mem_cons_self _ _)
    simp only [List.cons_append, trimSpaceStop, asciiSpace_ascii d hd, hd, if_true, if_false]
    exact ih (fun c hc => h c (List.mem_cons_of_mem _ hc))

theorem TrimSpace_append_space (U : Unicode) (s sp : GoString) (hs : ∀ c ∈ s, isPlain c)
    (hne : s ≠ []) (h : ∀ c ∈ sp, asciiSpace c = true) : TrimSpace U (s ++ sp) = s := by
  cases s with
  | nil => exact absurd rfl hne
  | cons c s =>
    have hc := isPlain_ascii c (hs c (List.mem_cons_self _ _))
    have hr : ∀ d ∈ (c :: s).reverse, isPlain d := fun d hd => hs d (List.mem_reverse.mp hd)
    have e : TrimSpace U (c :: s ++ sp) = trimSpaceStop U ((c :: s) ++ sp).reverse := by
      simp only [List.cons_append, TrimSpace, hc.1, hc.2.1, if_false, Bool.false_eq_true]
      rfl
    rw [e, List.reverse_append,
      trimSpaceStop_space_append U _ _ (fun d hd => h d (List.mem_reverse.mp hd)),
      trimSpaceStop_of_plain U _ hr, List.reverse_reverse]

/-! ## The pattern and the decoding loop -/

theorem accepts_hexClass (k : Nat) (c : Byte) : (hexClass k).accepts c = true ↔ isLowerHex c := by
  simp only [Atom.accepts, hexClass, isLowerHex, List.any_cons, List.any_nil, Bool.or_false,
    Bool.or_eq_true, decide_eq_true_eq]
  exact or_comm

theorem accepts_dash (c : Byte) : dash.accepts c = true ↔ c = 45 := by
  simp only [Atom.accepts, dash, List.any_cons, List.any_nil, Bool.or_false, decide_eq_true_eq]
  exact le_antisymm_iff.symm.trans eq_comm

theorem hexClass_count (k : Nat) : (hexClass k).count = k := rfl

theorem dash_count : dash.count = 1 := rfl

theorem MatchString_length (s : GoString) (h : MatchString reMatch s = true) :
    s.length = 36 := by
  simp only [MatchString, reMatch, hexClass_count, dash_count, Bool.and_eq_true, beq_iff_eq,
    List.length_take, List.length_drop, List.isEmpty_iff_length_eq_zero] at h
  omega

theorem MatchString_iff (s : GoString) : MatchString reMatch s = true ↔ Canonical s := by
  have key : s.length = 36 → (MatchString reMatch s = true ↔ Canonical s) := by
    intro hlen
    obtain ⟨c0, c1, c2, c3, c4, c5, c6, c7, c8, c9, c10, c11, c12, c13, c14, c15, c16, c17, c18, c19,
      c20, c21, c22, c23, c24, c25, c26, c27, c28, c29, c30, c31, c32, c33, c34, c35, rfl⟩ := list36 s hlen
    rw [Canonical_explicit]
    simp [MatchString, reMatch, hexClass_count, dash_count, accepts_hexClass, accepts_dash,
      and_assoc]
  exact ⟨fun h => (key (MatchString_length s h)).mp h, fun h => (key h.1).mpr h⟩

theorem decodeLoop_canonical (c0 c1 c2 c3 c4 c5 c6 c7 c8 c9 c10 c11 c12 c13 c14 c15 c16 c17 c18 c19 c20 c21 c22 c23 c24
      c25 c26 c27 c28 c29 c30 c31 c32 c33 c34 c35 : Byte)
    (h : Canonical [c0, c1, c2, c3, c4, c5, c6, c7, c8, c9, c10, c11, c12, c13, c14, c15, c16, c17, c18,
        c19, c20, c21, c22, c23, c24, c25, c26, c27, c28, c29, c30, c31, c32, c33, c34, c35]) :
    decodeLoop [c0, c1, c2, c3, c4, c5, c6, c7, c8, c9, c10, c11, c12, c13, c14, c15, c16, c17, c18,
        c19, c20, c21, c22, c23, c24, c25, c26, c27, c28, c29, c30, c31, c32, c33, c34, c35] decoder zeroUUID =
      (some ⟨[unhexPair c0 c1, unhexPair c2 c3, unhexPair c4 c5, unhexPair c6 c7, unhexPair c9 c10,
        unhexPair c11 c12, unhexPair c14 c15, unhexPair c16 c17, unhexPair c19 c20, unhexPair
        c21 c22, unhexPair c24 c25, unhexPair c26 c27, unhexPair c28 c29, unhexPair c30 c31,
        unhexPair c32 c33, unhexPair c34 c35], rfl⟩, none) := by
  rw [Canonical_explicit] at h
  obtain ⟨h0, h1, h2, h3, h4, h5, h6, h7, h8, h9, h10, h11, h12, h13, h14, h15, h16, h17, h18, h19,
      h20, h21, h22, h23, h24, h25, h26, h27, h28, h29, h30, h31, h32, h33, h34, h35⟩ := h
  have e0 : hexDecode [c0, c1, c2, c3, c4, c5, c6, c7] = (unhexPairs [c0, c1, c2, c3, c4, c5, c6, c7], none) :=
    hexDecode_of_lower _ (by simp [*]) (by simp)
  have e1 : hexDecode [c9, c10, c11, c12] = (unhexPairs [c9, c10, c11, c12], none) :=
    hexDecode_of_lower _ (by simp [*]) (by simp)
  have e2 : hexDecode [c14, c15, c16, c17] = (unhexPairs [c14, c15, c16, c17], none) :=
    hexDecode_of_lower _ (by simp [*]) (by simp)
  have e3 : hexDecode [c19, c20, c21, c22] = (unhexPairs [c19, c20, c21, c22], none) :=
    hexDecode_of_lower _ (by simp [*]) (by simp)
  have e4 : hexDecode [c24, c25, c26, c27, c28, c29, c30, c31, c32, c33, c34, c35] = (unhexPairs [c24, c25, c26, c27, c28, c29, c30, c31, c32, c33, c34, c35], none) :=
    hexDecode_of_lower _ (by simp [*]) (by simp)
  simp only [decodeLoop, decoder, slice, List.take, List.drop, e0, e1, e2, e3, e4]
  rfl

theorem Decode_eq_of_canonical (U : Unicode) (s : GoString)
    (h : Canonical (ToLower U (TrimSpace U s))) :
    Decode U s = decodeLoop (ToLower U (TrimSpace U s)) decoder zeroUUID := by
  simp [Decode, (MatchString_iff _).mpr h]

theorem Decode_eq_of_not_canonical (U : Unicode) (s : GoString)
    (h : ¬ Canonical (ToLower U (TrimSpace U s))) :
    Decode U s = (none, some (.notValid (ToLower U (TrimSpace U s)))) := by
  have : MatchString reMatch (ToLower U (TrimSpace U s)) = false := by
    rw [← Bool.not_eq_true]
    exact fun hm => h ((MatchString_iff _).mp hm)
  simp [Decode, this]

theorem decodeLoop_ok (n : GoString) (h : Canonical n) :
    ∃ u, decodeLoop n decoder zeroUUID = (some u, none) := by
  obtain ⟨c0, c1, c2, c3, c4, c5, c6, c7, c8, c9, c10, c11, c12, c13, c14, c15, c16, c17, c18, c19,
      c20, c21, c22, c23, c24, c25, c26, c27, c28, c29, c30, c31, c32, c33, c34, c35, rfl⟩ := list36 n h.1
  exact ⟨_, decodeLoop_canonical _ _ _ _ _ _ _ _ _ _ _ _ _ _ _ _ _ _ _ _ _ _ _ _ _ _ _ _ _ _ _ _ _ _ _ _ h⟩

theorem Decode_congr (U : Unicode) (s t : GoString) (h : TrimSpace U s = TrimSpace U t) :
    Decode U s = Decode U t := by
  simp only [Decode, h]

theorem decode_encode (U : Unicode) (x : UUID) :
    Decode U (Encode (some x)) = (some x, none) := by
  have hc := (encode_format x).1
  have hn := normalize_of_canonical U _ hc
  rw [Decode_eq_of_canonical U _ (hn.symm ▸ hc), hn]
  obtain ⟨l, hl⟩ := x
  obtain ⟨b0, b1, b2, b3, b4, b5, b6, b7, b8, b9, b10, b11, b12, b13, b14, b15, rfl⟩ := list16 l hl
  rw [Encode_explicit] at hc ⊢
  rw [decodeLoop_canonical _ _ _ _ _ _ _ _ _ _ _ _ _ _ _ _ _ _ _ _ _ _ _ _ _ _ _ _ _ _ _ _ _ _ _ _ hc]
  simp only [unhexPair_hex]

theorem decode_accepts (U : Unicode) (s : GoString) :
    (∃ u, Decode U s = (some u, none)) ↔ Canonical (ToLower U (TrimSpace U s)) := by
  constructor
  · rintro ⟨u, hu⟩
    by_contra hc
    rw [Decode_eq_of_not_canonical U s hc] at hu
    simp at hu
  · intro hc
    rw [Decode_eq_of_canonical U s hc]
    exact decodeLoop_ok _ hc

theorem decode_bytes (U : Unicode) (s : GoString) (u : UUID)
    (h : Decode U s = (some u, none)) (i : Fin 16) :
    (u.get i).val =
      16 * digitValue ((hexDigits (ToLower U (TrimSpace U s))).getD (2 * i.val) 0)
        + digitValue ((hexDigits (ToLower U (TrimSpace U s))).getD (2 * i.val + 1) 0) := by
  have hc : Canonical (ToLower U (TrimSpace U s)) := (decode_accepts U s).mp ⟨u, h⟩
  rw [Decode_eq_of_canonical U s hc] at h
  generalize ToLower U (TrimSpace U s) = n at h hc
  obtain ⟨c0, c1, c2, c3, c4, c5, c6, c7, c8, c9, c10, c11, c12, c13, c14, c15, c16, c17, c18, c19,
      c20, c21, c22, c23, c24, c25, c26, c27, c28, c29, c30, c31, c32, c33, c34, c35, rfl⟩ := list36 n hc.1
  rw [decodeLoop_canonical _ _ _ _ _ _ _ _ _ _ _ _ _ _ _ _ _ _ _ _ _ _ _ _ _ _ _ _ _ _ _ _ _ _ _ _ hc] at h
  simp only [Prod.mk.injEq, Option.some.injEq, and_true] at h
  subst h
  rw [Canonical_explicit] at hc
  obtain ⟨h0, h1, h2, h3, h4, h5, h6, h7, h8, h9, h10, h11, h12, h13, h14, h15, h16, h17, h18, h19,
      h20, h21, h22, h23, h24, h25, h26, h27, h28, h29, h30, h31, h32, h33, h34, h35⟩ := hc
  subst h8 h13 h18 h23
  have e : ∀ c : Byte, isLowerHex c → (c != 45) = true := fun c hc => by
    simpa using isLowerHex_ne_dash c hc
  simp only [hexDigits, List.filter_cons, e, *, if_true,
    show ((45 : Byte) != 45) = false from rfl, Bool.false_eq_true, if_false, List.filter_nil]
  fin_cases i <;> exact unhexPair_val _ _ (by assumption) (by assumption)

theorem encode_decode (U : Unicode) (s : GoString) (u : UUID)
    (h : Decode U s = (some u, none)) :
    Encode (some u) = ToLower U (TrimSpace U s) := by
  have hc : Canonical (ToLower U (TrimSpace U s)) := (decode_accepts U s).mp ⟨u, h⟩
  rw [Decode_eq_of_canonical U s hc] at h
  generalize ToLower U (TrimSpace U s) = n at h hc
  obtain ⟨c0, c1, c2, c3, c4, c5, c6, c7, c8, c9, c10, c11, c12, c13, c14, c15, c16, c17, c18, c19,
      c20, c21, c22, c23, c24, c25, c26, c27, c28, c29, c30, c31, c32, c33, c34, c35, rfl⟩ := list36 n hc.1
  rw [decodeLoop_canonical _ _ _ _ _ _ _ _ _ _ _ _ _ _ _ _ _ _ _ _ _ _ _ _ _ _ _ _ _ _ _ _ _ _ _ _ hc] at h
  simp only [Prod.mk.injEq, Option.some.injEq, and_true] at h
  subst h
  rw [Canonical_explicit] at hc
  obtain ⟨h0, h1, h2, h3, h4, h5, h6, h7, h8, h9, h10, h11, h12, h13, h14, h15, h16, h17, h18, h19,
      h20, h21, h22, h23, h24, h25, h26, h27, h28, h29, h30, h31, h32, h33, h34, h35⟩ := hc
  subst h8 h13 h18 h23
  rw [Encode_explicit]
  simp only [hexHi_unhexPair, hexLo_unhexPair, *]

/-! ## Lemmas on `Get` and `Read` -/

theorem get_miss (U : Unicode) (w : World) (now later : Int) (args : List GoString)
    (h : w.current = none ∨
      ∃ c, w.current = some c ∧ (c.filePath ≠ sfFilePath args ∨ c.validationTime < now)) :
    Get U w now later args = Read U w later [sfFilePath args] := by
  rcases h with h | ⟨c, h, hc⟩
  · simp [Get, h]
  · simp only [Get, h]
    rw [if_pos hc]

theorem get_hit (U : Unicode) (w : World) (now later : Int) (args : List GoString) (c : cache)
    (h : w.current = some c) (hp : c.filePath = sfFilePath args)
    (ht : now ≤ c.validationTime) :
    Get U w now later args = ((some c.uuid, none), w) := by
  simp only [Get, h]
  rw [if_neg]
  rintro (h1 | h1)
  · exact h1 hp
  · exact absurd h1 (not_lt.mpr ht)

theorem read_success (U : Unicode) (w : World) (now : Int) (args : List GoString)
    (content : GoString) (u : UUID)
    (hfile : w.files (sfFilePath args) = .file content)
    (hlen : 36 ≤ content.length)
    (hdec : Decode U (content.take 44) = (some u, none)) :
    Read U w now args =
      ((some u, none),
        { w with current := some ⟨u, sfFilePath args, now + ValidationTimePeriod⟩ }) := by
  have h1 : ¬ (List.take (UUIDHexLen + 8) content).length = 0 := by
    simp only [UUIDHexLen, List.length_take]; omega
  have h2 : ¬ (List.take (UUIDHexLen + 8) content).length < UUIDHexLen := by
    simp only [UUIDHexLen, List.length_take]; omega
  simp only [Read, hfile, h1, h2, if_false]
  rw [show UUIDHexLen + 8 = 44 from rfl, hdec]

theorem read_error_world (U : Unicode) (w : World) (now : Int) (args : List GoString)
    (h : (Read U w now args).1.2 ≠ none) : (Read U w now args).2 = w := by
  rcases hf : w.files (sfFilePath args) with e | e | content
  · simp only [Read, hf]
  · simp only [Read, hf]
  · simp only [Read, hf] at h ⊢
    split_ifs with h1 h2
    · rfl
    · rfl
    · rw [if_neg h1, if_neg h2] at h
      rcases hd : Decode U (List.take (UUIDHexLen + 8) content) with ⟨_ | u, _ | e⟩
      · rfl
      · rfl
      · rw [hd] at h
        exact absurd rfl h
      · rfl

theorem read_short (U : Unicode) (w : World) (now : Int) (args : List GoString)
    (content : GoString) (hfile : w.files (sfFilePath args) = .file content)
    (h0 : 0 < content.length) (h36 : content.length < 36) :
    Read U w now args = ((none, some (.tooSmall (sfFilePath args))), w) := by
  have h1 : ¬ (List.take (UUIDHexLen + 8) content).length = 0 := by
    simp only [UUIDHexLen, List.length_take]; omega
  have h2 : (List.take (UUIDHexLen + 8) content).length < UUIDHexLen := by
    simp only [UUIDHexLen, List.length_take]; omega
  simp only [Read, hfile, h1, h2, if_false, if_true]

theorem read_empty (U : Unicode) (w : World) (now : Int) (args : List GoString)
    (content : GoString) (hfile : w.files (sfFilePath args) = .file content)
    (h0 : content.length = 0) :
    Read U w now args = ((none, some .eof), w) := by
  have h1 : (List.take (UUIDHexLen + 8) content).length = 0 := by
    simp only [UUIDHexLen, List.length_take]; omega
  simp only [Read, hfile, h1, if_true]

theorem decode_trailing_space (U : Unicode) (x : UUID) (rest : GoString)
    (hsp : ∀ c ∈ rest.take 8, asciiSpace c = true) :
    Decode U ((Encode (some x) ++ rest).take 44) = (some x, none) := by
  have hc := (encode_format x).1
  have htake : (Encode (some x) ++ rest).take 44 = Encode (some x) ++ rest.take 8 := by
    rw [List.take_append_eq_append_take, Encode_length,
      List.take_of_length_le (by rw [Encode_length]; decide)]
  have hne : Encode (some x) ≠ [] := by
    intro h0
    have := Encode_length x
    rw [h0] at this
    exact absurd this (by decide)
  rw [htake, Decode_congr U _ (Encode (some x)), decode_encode]
  rw [TrimSpace_append_space U _ _ (Canonical_mem _ hc) hne hsp,
    TrimSpace_of_plain U _ (Canonical_mem _ hc)]

/-! ## The codec -/

/-- Claim C1: for every 16-byte identifier `x`, `Decode(Encode(x))` returns `x`
and no error. -/
theorem Decode_Encode_roundtrip (U : Unicode) (x : UUID) :
    Decode U (Encode (some x)) = (some x, none) :=
  decode_encode U x

/-- Claim C2: `Decode(s)` returns an identifier and no error exactly when
`ToLower(TrimSpace(s))` is in the canonical grammar (36 characters, `-` at
indices 8, 13, 18, 23, digits `0-9a-f` elsewhere); otherwise it returns no
identifier and the format error, which carries the normalised string. -/
theorem Decode_succeeds_iff_canonical (U : Unicode) (s : GoString) :
    ((∃ u, Decode U s = (some u, none)) ↔ Canonical (ToLower U (TrimSpace U s))) ∧
      (¬ Canonical (ToLower U (TrimSpace U s)) →
        Decode U s = (none, some (.notValid (ToLower U (TrimSpace U s))))) :=
  ⟨decode_accepts U s, Decode_eq_of_not_canonical U s⟩

/-- Claim C3: when `Decode(s)` succeeds with `u`, byte `i` of `u` is the value
`16 * hi + lo` of the `i`-th pair of hex digits of the normalised string with
its hyphens removed, in order; and `Decode` of the text `uuidStr1` of the tests
is the identifier `uuid1`, the bytes `72 32 c1 c3 f6 d1 4a ec be dd c7 e4 c1 0d
c8 d3`. -/
theorem Decode_bytes_in_order (U : Unicode) :
    (∀ (s : GoString) (u : UUID), Decode U s = (some u, none) → ∀ i : Fin 16,
      (u.get i).val =
        16 * digitValue ((hexDigits (ToLower U (TrimSpace U s))).getD (2 * i.val) 0)
          + digitValue ((hexDigits (ToLower U (TrimSpace U s))).getD (2 * i.val + 1) 0)) ∧
      Decode U uuidStr1 = (some uuid1, none) ∧
      uuid1.toList =
        [0x72, 0x32, 0xc1, 0xc3, 0xf6, 0xd1, 0x4a, 0xec, 0xbe, 0xdd, 0xc7, 0xe4, 0xc1, 0x0d,
          0xc8, 0xd3] :=
  ⟨fun s u h i => decode_bytes U s u h i,
    (show uuidStr1 = Encode (some uuid1) by decide) ▸ decode_encode U uuid1, rfl⟩

/-- Witness of C3 at the upper-case text `uuidStr1Upper`: it decodes to `uuid1`,
whose bytes are the digit pairs of the trimmed, lower-cased text. -/
theorem Decode_bytes_in_order_witness :
    Decode Unicode.inert uuidStr1Upper = (some uuid1, none) ∧
      ∀ i : Fin 16,
        (uuid1.get i).val =
          16 * digitValue ((hexDigits (ToLower Unicode.inert
              (TrimSpace Unicode.inert uuidStr1Upper))).getD (2 * i.val) 0)
            + digitValue ((hexDigits (ToLower Unicode.inert
              (TrimSpace Unicode.inert uuidStr1Upper))).getD (2 * i.val + 1) 0) :=
  ⟨by decide, (Decode_bytes_in_order Unicode.inert).1 uuidStr1Upper uuid1 (by decide)⟩

/-- Claim C4: when `Decode(s)` succeeds with `u`, `Encode(u)` is the normalised
string `ToLower(TrimSpace(s))`; so for `s` already canonical, `Encode(u)` is `s`. -/
theorem Encode_Decode_normalized (U : Unicode) (s : GoString) (u : UUID)
    (h : Decode U s = (some u, none)) :
    Encode (some u) = ToLower U (TrimSpace U s) ∧ (Canonical s → Encode (some u) = s) :=
  ⟨encode_decode U s u h, fun hc =>
    (encode_decode U s u h).trans (normalize_of_canonical U s hc)⟩

/-- Witness of C4 at the upper-case text `uuidStr1Upper`, which decodes to
`uuid1` and encodes back to the lower-case text `uuidStr1`. -/
theorem Encode_Decode_normalized_witness :
    Decode Unicode.inert uuidStr1Upper = (some uuid1, none) ∧
      (Encode (some uuid1) = ToLower Unicode.inert (TrimSpace Unicode.inert uuidStr1Upper) ∧
        (Canonical uuidStr1Upper → Encode (some uuid1) = uuidStr1Upper)) ∧
      Encode (some uuid1) = uuidStr1 :=
  ⟨by decide, Encode_Decode_normalized Unicode.inert uuidStr1Upper uuid1 (by decide),
    by decide⟩

/-- Claim C5: for every identifier `x`, `Encode(x)` has 36 characters, `-` at
indices 8, 13, 18 and 23 and a lower-case hex digit everywhere else, and its
32 hex digits are the two-digit lower-case hex of bytes 0..15 in order. -/
theorem Encode_is_canonical (x : UUID) :
    Canonical (Encode (some x)) ∧
      hexDigits (Encode (some x)) = x.toList.flatMap twoDigitHex :=
  encode_format x

/-! ## The cache -/

/-- Counterexample to C6 as stated: with the clock exactly at the stored expiry
instant (`now = expiry = 10`, so `now >= expiry`) `Get` still answers from the
cache, although no file exists and a full `Read` would fail. -/
theorem Get_hits_at_expiry_instant :
    (10 : Int) ≥ cachedUntil10.validationTime ∧
      (Get Unicode.inert (noFile (some cachedUntil10)) 10 10 [examplePath]).1
        = (some uuid1, none) ∧
      (Read Unicode.inert (noFile (some cachedUntil10)) 10 [examplePath]).1
        = (none, some (.pathError "open" examplePath ENOENT)) := by
  decide

/-- Claim C6, amended: `Get(path)` is the full `Read(path)` when the slot is
empty, or the stored path differs from `path`, or the stored expiry instant is
strictly before `now`; in every other case (`now <= expiry` included) it
returns the stored identifier and leaves the world, the slot included, as it
was. -/
theorem Get_hits_until_past_expiry (U : Unicode) (w : World) (now later : Int)
    (args : List GoString) :
    ((w.current = none ∨
        ∃ c, w.current = some c ∧ (c.filePath ≠ sfFilePath args ∨ c.validationTime < now)) →
      Get U w now later args = Read U w later [sfFilePath args]) ∧
    (∀ c, w.current = some c → c.filePath = sfFilePath args → now ≤ c.validationTime →
      Get U w now later args = ((some c.uuid, none), w)) :=
  ⟨get_miss U w now later args, fun c h hp ht => get_hit U w now later args c h hp ht⟩

/-- Claim C7: when the file at the path is a regular file of at least 36 bytes
whose first 44 bytes decode to `u`, `Read(path)` returns `u` whatever the slot
held and leaves the slot holding the snapshot of `u`, the path and the expiry
`now + ValidationTimePeriod`, which is five minutes. -/
theorem Read_publishes_snapshot (U : Unicode) (w : World) (now : Int) (args : List GoString)
    (content : GoString) (u : UUID)
    (hfile : w.files (sfFilePath args) = .file content)
    (hlen : 36 ≤ content.length)
    (hdec : Decode U (content.take 44) = (some u, none)) :
    Read U w now args =
        ((some u, none),
          { w with current := some ⟨u, sfFilePath args, now + ValidationTimePeriod⟩ }) ∧
      ValidationTimePeriod = 5 * 60 * 1000000000 :=
  ⟨read_success U w now args content u hfile hlen hdec, by decide⟩

/-- Witness of C7: the file holds `uuidStr1`; the slot holds an older entry for
another identifier and is overwritten. -/
theorem Read_publishes_snapshot_witness :
    (oneFile uuidStr1 (some ⟨zeroUUID, examplePath, 10⟩)).files (sfFilePath [examplePath])
        = .file uuidStr1 ∧
      36 ≤ uuidStr1.length ∧
      Decode Unicode.inert (uuidStr1.take 44) = (some uuid1, none) ∧
      Read Unicode.inert (oneFile uuidStr1 (some ⟨zeroUUID, examplePath, 10⟩)) 7 [examplePath]
        = ((some uuid1, none),
            { oneFile uuidStr1 (some ⟨zeroUUID, examplePath, 10⟩) with
              current := some ⟨uuid1, sfFilePath [examplePath], 7 + ValidationTimePeriod⟩ }) :=
  ⟨by decide, by decide, by decide,
    (Read_publishes_snapshot Unicode.inert _ 7 [examplePath] uuidStr1 uuid1 (by decide)
      (by decide) (by decide)).1⟩

/-- Claim C8: when `Read(path)` returns an error, the world it leaves, the slot
included, is the one it found; so a snapshot for the path that has not expired
at `t` still answers `Get(path)` at `t`. -/
theorem Read_failure_keeps_cache (U : Unicode) (w : World) (now : Int) (args : List GoString)
    (h : (Read U w now args).1.2 ≠ none) :
    (Read U w now args).2 = w ∧
      ∀ c t later, w.current = some c → c.filePath = sfFilePath args → t ≤ c.validationTime →
        Get U (Read U w now args).2 t later args = ((some c.uuid, none), w) :=
  ⟨read_error_world U w now args h, fun c t later hc hp ht => by
    rw [read_error_world U w now args h]
    exact get_hit U w t later args c hc hp ht⟩

/-- Witness of C8: no file exists, the slot holds `uuid1` until instant 10; a
`Read` at instant 3 fails and the slot goes on answering. -/
theorem Read_failure_keeps_cache_witness :
    (Read Unicode.inert (noFile (some cachedUntil10)) 3 [examplePath]).1.2 ≠ none ∧
      ((Read Unicode.inert (noFile (some cachedUntil10)) 3 [examplePath]).2
          = noFile (some cachedUntil10) ∧
        ∀ c t later, (noFile (some cachedUntil10)).current = some c →
          c.filePath = sfFilePath [examplePath] → t ≤ c.validationTime →
          Get Unicode.inert
              (Read Unicode.inert (noFile (some cachedUntil10)) 3 [examplePath]).2
              t later [examplePath]
            = ((some c.uuid, none), noFile (some cachedUntil10))) :=
  ⟨by decide, Read_failure_keeps_cache Unicode.inert _ 3 [examplePath] (by decide)⟩

/-! ## Loading the file -/

/-- Counterexample to C9 as stated: on an existing empty file `Read` fails with
`io.EOF`, the error of `f.Read`, which is not the too-small error. -/
theorem Read_empty_file_is_eof :
    (oneFile [] none).files examplePath = .file [] ∧
      (Read Unicode.inert (oneFile [] none) 0 [examplePath]).1 = (none, some .eof) ∧
      Error.eof ≠ Error.tooSmall examplePath := by
  decide

/-- Claim C9, amended: for a regular file of 1 to 35 bytes `Read(path)` fails
with the too-small error and leaves the world as it was; for the empty file it
fails with `io.EOF`. -/
theorem Read_short_file (U : Unicode) (w : World) (now : Int) (args : List GoString)
    (content : GoString) (hfile : w.files (sfFilePath args) = .file content) :
    (0 < content.length → content.length < 36 →
        Read U w now args = ((none, some (.tooSmall (sfFilePath args))), w)) ∧
      (content.length = 0 → Read U w now args = ((none, some .eof), w)) :=
  ⟨read_short U w now args content hfile, read_empty U w now args content hfile⟩

/-- Witness of C9: a file of eight bytes. -/
theorem Read_short_file_witness :
    (oneFile (bytesOf "7232c1c3") none).files (sfFilePath [examplePath])
        = .file (bytesOf "7232c1c3") ∧
      0 < (bytesOf "7232c1c3").length ∧ (bytesOf "7232c1c3").length < 36 ∧
      Read Unicode.inert (oneFile (bytesOf "7232c1c3") none) 0 [examplePath]
        = ((none, some (.tooSmall (sfFilePath [examplePath]))),
            oneFile (bytesOf "7232c1c3") none) :=
  ⟨by decide, by decide, by decide,
    (Read_short_file Unicode.inert (oneFile (bytesOf "7232c1c3") none) 0 [examplePath]
      (bytesOf "7232c1c3") (by decide)).1 (by decide) (by decide)⟩

/-- Counterexample to C10 as stated: the first 36 bytes of the file are the
canonical text of `uuid1` and one byte `x` follows; `Read` decodes all 37 bytes
and fails with the format error. -/
theorem Read_rejects_trailing_bytes :
    (oneFile (uuidStr1 ++ bytesOf "x") none).files examplePath
        = .file (uuidStr1 ++ bytesOf "x") ∧
      (uuidStr1 ++ bytesOf "x").take 36 = Encode (some uuid1) ∧
      (Read Unicode.inert (oneFile (uuidStr1 ++ bytesOf "x") none) 0 [examplePath]).1
        = (none, some (.notValid (uuidStr1 ++ bytesOf "x"))) := by
  decide

/-- Claim C10, amended: when the file starts with the canonical text of `x` and
the (at most eight) following bytes that `Read` reads are ASCII white space,
`Read(path)` returns `x` and publishes it; bytes after the 44th are not read. -/
theorem Read_ignores_trailing_space (U : Unicode) (w : World) (now : Int)
    (args : List GoString) (x : UUID) (rest : GoString)
    (hfile : w.files (sfFilePath args) = .file (Encode (some x) ++ rest))
    (hsp : ∀ c ∈ rest.take 8, asciiSpace c = true) :
    Read U w now args =
      ((some x, none),
        { w with current := some ⟨x, sfFilePath args, now + ValidationTimePeriod⟩ }) :=
  read_success U w now args _ x hfile (by rw [List.length_append, Encode_length]; omega)
    (decode_trailing_space U x rest hsp)

/-- Witness of C10: the canonical text of `uuid1` followed by CR LF. -/
theorem Read_ignores_trailing_space_witness :
    (oneFile (Encode (some uuid1) ++ bytesOf "\r\n") none).files (sfFilePath [examplePath])
        = .file (Encode (some uuid1) ++ bytesOf "\r\n") ∧
      (∀ c ∈ (bytesOf "\r\n").take 8, asciiSpace c = true) ∧
      Read Unicode.inert (oneFile (Encode (some uuid1) ++ bytesOf "\r\n") none) 7 [examplePath]
        = ((some uuid1, none),
            { oneFile (Encode (some uuid1) ++ bytesOf "\r\n") none with
              current := some ⟨uuid1, sfFilePath [examplePath], 7 + ValidationTimePeriod⟩ }) :=
  ⟨by decide, by decide,
    Read_ignores_trailing_space Unicode.inert _ 7 [examplePath] uuid1 (bytesOf "\r\n")
      (by decide) (by decide)⟩

/-! ## Lemmas on `WriteNew` and `Make` -/

theorem read_loads (U : Unicode) (w : World) (now : Int) (args : List GoString) (u : UUID)
    (h : Loads U w (sfFilePath args) u) :
    Read U w now args =
      ((some u, none),
        { w with current := some ⟨u, sfFilePath args, now + ValidationTimePeriod⟩ }) := by
  obtain ⟨content, hf, hl, hd⟩ := h
  exact read_success U w now args content u hf hl hd

theorem sfFilePath_singleton (p : GoString) : sfFilePath [p] = p := rfl

theorem sfFilePath_idem (args : List GoString) : sfFilePath [sfFilePath args] = sfFilePath args :=
  rfl

theorem get_miss_of (U : Unicode) (w : World) (now later : Int) (args : List GoString)
    (h : Misses w (sfFilePath args) now) :
    Get U w now later args = Read U w later [sfFilePath args] :=
  get_miss U w now later args h

theorem writeNew_ok (w : World) (rnd : UUID) (fname : GoString)
    (hc : w.createErr fname = none) (hw : w.writeErr fname = none) :
    WriteNew w rnd fname =
      (none, { w with files := written w.files fname (Encode (some (Gen rnd)))
                      current := none }) := by
  simp only [WriteNew, hc, hw, InvalidateCache]

theorem writeNew_ok_iff (w : World) (rnd : UUID) (fname : GoString) :
    (WriteNew w rnd fname).1 = none ↔ w.createErr fname = none ∧ w.writeErr fname = none := by
  rcases hc : w.createErr fname with _ | e
  · rcases hw : w.writeErr fname with _ | ⟨k, e⟩
    · simp [WriteNew, hc, hw]
    · simp [WriteNew, hc, hw]
  · simp [WriteNew, hc]

theorem writeNew_err_current (w : World) (rnd : UUID) (fname : GoString)
    (h : (WriteNew w rnd fname).1 ≠ none) : (WriteNew w rnd fname).2.current = w.current := by
  rcases hc : w.createErr fname with _ | e
  · rcases hw : w.writeErr fname with _ | ⟨k, e⟩
    · simp [WriteNew, hc, hw] at h
    · simp [WriteNew, hc, hw]
  · simp [WriteNew, hc]

theorem loads_written (U : Unicode) (w : World) (fname : GoString) (x : UUID)
    (cur : Option cache) :
    Loads U { w with files := written w.files fname (Encode (some x)), current := cur }
      fname x := by
  refine ⟨Encode (some x), by simp [written], by rw [Encode_length], ?_⟩
  rw [List.take_of_length_le (by rw [Encode_length]; decide)]
  exact decode_encode U x

theorem get_after_writeNew (U : Unicode) (w : World) (rnd : UUID) (fname : GoString)
    (now later : Int) (hc : w.createErr fname = none) (hw : w.writeErr fname = none) :
    Get U (WriteNew w rnd fname).2 now later [fname] =
      ((some (Gen rnd), none),
        { w with files := written w.files fname (Encode (some (Gen rnd)))
                 current := some ⟨Gen rnd, fname, later + ValidationTimePeriod⟩ }) := by
  rw [writeNew_ok w rnd fname hc hw]
  rw [get_miss U _ now later [fname] (Or.inl rfl)]
  exact read_loads U _ later [fname] (Gen rnd) (loads_written U w fname (Gen rnd) none)

theorem make_creates (U : Unicode) (w : World) (rnd : UUID) (t1 t2 t3 t4 : Int)
    (args : List GoString) (errno : Nat)
    (hfile : w.files (sfFilePath args) = .openFails errno)
    (hc : w.createErr (sfFilePath args) = none) (hw : w.writeErr (sfFilePath args) = none)
    (hmiss : Misses w (sfFilePath args) t1) :
    Make U w rnd t1 t2 t3 t4 args =
      ((some (Gen rnd), none),
        { w with files := written w.files (sfFilePath args) (Encode (some (Gen rnd)))
                 current := some ⟨Gen rnd, sfFilePath args, t4 + ValidationTimePeriod⟩ }) := by
  have hget : Get U w t1 t2 [sfFilePath args] =
      ((none, some (.pathError "open" (sfFilePath args) errno)), w) := by
    rw [get_miss U w t1 t2 [sfFilePath args] hmiss]
    simp only [Read, sfFilePath_idem, hfile]
  simp only [Make, hget, if_true]
  have h2 := get_after_writeNew U w rnd (sfFilePath args) t3 t4 hc hw
  rw [writeNew_ok w rnd _ hc hw] at h2 ⊢
  exact h2


/-! ## What a successful `Read`, `Get` or `Make` leaves -/

theorem read_ok (U : Unicode) (w : World) (now : Int) (args : List GoString) (A : UUID)
    (w1 : World) (h : Read U w now args = ((some A, none), w1)) :
    Loads U w (sfFilePath args) A ∧
      w1 = { w with current := some ⟨A, sfFilePath args, now + ValidationTimePeriod⟩ } := by
  rcases hf : w.files (sfFilePath args) with e | e | content
  · simp [Read, hf] at h
  · simp [Read, hf] at h
  · simp only [Read, hf] at h
    split_ifs at h with h1 h2
    · simp at h
    · simp at h
    · have hlen : 36 ≤ content.length := by
        simp only [UUIDHexLen, List.length_take] at h2; omega
      rcases hd : Decode U (List.take (UUIDHexLen + 8) content) with ⟨_ | u, _ | e⟩
      · rw [hd] at h; simp at h
      · rw [hd] at h; simp at h
      · rw [hd] at h
        simp only [Prod.mk.injEq, Option.some.injEq, and_true] at h
        obtain ⟨hu, hw⟩ := h
        subst hu
        exact ⟨⟨content, hf, hlen, hd⟩, hw.symm⟩
      · rw [hd] at h; simp at h

theorem read_world (U : Unicode) (w : World) (now : Int) (args : List GoString) :
    (Read U w now args).2 = w ∨
      ∃ u, Loads U w (sfFilePath args) u ∧
        Read U w now args = ((some u, none),
          { w with current := some ⟨u, sfFilePath args, now + ValidationTimePeriod⟩ }) := by
  by_cases h : (Read U w now args).1.2 = none
  · rcases hr : Read U w now args with ⟨⟨_ | u, e⟩, w1⟩
    · left
      rcases hf : w.files (sfFilePath args) with e | e | content
      · simp [Read, hf] at hr; simp [← hr.2]
      · simp [Read, hf] at hr; simp [← hr.2]
      · simp only [Read, hf] at hr
        split_ifs at hr with h1 h2
        · simp at hr; simp [← hr.2]
        · simp at hr; simp [← hr.2]
        · rcases hd : Decode U (List.take (UUIDHexLen + 8) content) with ⟨_ | u, _ | e⟩ <;>
            rw [hd] at hr <;> simp at hr <;> simp [← hr.2]
    · rw [hr] at h
      simp only at h
      subst h
      right
      exact ⟨u, (read_ok U w now args u w1 hr).1, by rw [(read_ok U w now args u w1 hr).2]⟩
  · left
    exact read_error_world U w now args h

theorem settled_publish (U : Unicode) (w : World) (fpath : GoString) (A : UUID) (t : Int)
    (h : Loads U w fpath A) :
    Settled U { w with current := some ⟨A, fpath, t⟩ } fpath A :=
  ⟨h, _, rfl, rfl, rfl⟩

theorem get_ok (U : Unicode) (w : World) (now later : Int) (args : List GoString) (A : UUID)
    (w1 : World) (hco : Coherent U w)
    (h : Get U w now later args = ((some A, none), w1)) :
    Settled U w1 (sfFilePath args) A := by
  by_cases hm : Misses w (sfFilePath args) now
  · rw [get_miss U w now later args hm] at h
    obtain ⟨hl, rfl⟩ := read_ok U w later [sfFilePath args] A w1 h
    exact settled_publish U w _ A _ hl
  · simp only [Misses, not_or, not_exists, not_and, not_lt] at hm
    rcases hc : w.current with _ | c
    · exact absurd hc hm.1
    · have h2 := hm.2 c hc
      have hp : c.filePath = sfFilePath args := by
        by_contra hne
        exact h2.1 hne
      rw [get_hit U w now later args c hc hp h2.2] at h
      simp only [Prod.mk.injEq, Option.some.injEq, and_true] at h
      obtain ⟨hu, rfl⟩ := h
      exact ⟨hu ▸ hp ▸ hco c hc, c, hc, hu, hp⟩

theorem get_settled (U : Unicode) (w : World) (now later : Int) (args : List GoString)
    (A : UUID) (h : Settled U w (sfFilePath args) A) :
    ∃ w1, Get U w now later args = ((some A, none), w1) ∧ w1.files = w.files ∧
      Settled U w1 (sfFilePath args) A := by
  obtain ⟨hl, c, hc, hu, hp⟩ := h
  by_cases hm : Misses w (sfFilePath args) now
  · rw [get_miss U w now later args hm, read_loads U w later [sfFilePath args] A hl]
    exact ⟨_, rfl, rfl, settled_publish U w _ A _ hl⟩
  · simp only [Misses, not_or, not_exists, not_and, not_lt] at hm
    have h2 := hm.2 c hc
    rw [get_hit U w now later args c hc hp h2.2, hu]
    exact ⟨w, rfl, rfl, hl, c, hc, hu, hp⟩

theorem make_settled (U : Unicode) (w : World) (rnd : UUID) (t1 t2 t3 t4 : Int)
    (args : List GoString) (A : UUID) (h : Settled U w (sfFilePath args) A) :
    ∃ w1, Make U w rnd t1 t2 t3 t4 args = ((some A, none), w1) ∧ w1.files = w.files ∧
      Settled U w1 (sfFilePath args) A := by
  obtain ⟨w1, hg, hf, hs⟩ := get_settled U w t1 t2 [sfFilePath args] A h
  refine ⟨w1, ?_, hf, hs⟩
  simp only [Make, hg]

theorem writeNew_world (w : World) (rnd : UUID) (fname : GoString) :
    (∃ e, WriteNew w rnd fname = (some e, w)) ∨
    (∃ e k, w.writeErr fname = some k ∧ (WriteNew w rnd fname).1 = some e) ∨
    WriteNew w rnd fname =
      (none, { w with files := written w.files fname (Encode (some (Gen rnd)))
                      current := none }) := by
  rcases hc : w.createErr fname with _ | e
  · rcases hw : w.writeErr fname with _ | ⟨k, e⟩
    · exact Or.inr (Or.inr (writeNew_ok w rnd fname hc hw))
    · exact Or.inr (Or.inl ⟨.pathError "write" fname e, (k, e), rfl, by simp [WriteNew, hc, hw]⟩)
  · exact Or.inl ⟨.pathError "open" fname e, by simp [WriteNew, hc]⟩

theorem make_ok (U : Unicode) (w : World) (rnd : UUID) (t1 t2 t3 t4 : Int)
    (args : List GoString) (A : UUID) (w1 : World) (hco : Coherent U w)
    (h : Make U w rnd t1 t2 t3 t4 args = ((some A, none), w1)) :
    Settled U w1 (sfFilePath args) A := by
  rcases hg : Get U w t1 t2 [sfFilePath args] with ⟨⟨u, _ | err⟩, w0⟩
  · simp only [Make, hg, Prod.mk.injEq, and_true] at h
    obtain ⟨hu, rfl⟩ := h
    subst hu
    exact get_ok U w t1 t2 [sfFilePath args] A w0 hco hg
  · simp only [Make, hg] at h
    cases err with
    | pathError op p errno =>
      simp only at h
      split_ifs at h with hop
      · rcases hwn : WriteNew w0 rnd (sfFilePath args) with ⟨_ | e2, w2⟩
        · rw [hwn] at h
          simp only at h
          have hcur : w2.current = none := by
            rcases writeNew_world w0 rnd (sfFilePath args) with ⟨e, he⟩ | ⟨e, k, -, he⟩ | hok
            · rw [hwn] at he; simp at he
            · rw [hwn] at he; simp at he
            · rw [hwn] at hok
              simp only [Prod.mk.injEq, true_and] at hok
              rw [hok]
          exact get_ok U w2 t3 t4 [sfFilePath args] A w1
            (fun c hc => by rw [hcur] at hc; simp at hc) h
        · rw [hwn] at h
          simp at h
      · simp at h
    | eof => simp at h
    | tooSmall p => simp at h
    | notValid s => simp at h
    | hexFailed a b c => simp at h


/-! ## The coherence invariant -/

theorem read_coherent (U : Unicode) (w : World) (now : Int) (args : List GoString)
    (h : Coherent U w) : Coherent U (Read U w now args).2 := by
  rcases read_world U w now args with hw | ⟨u, hl, hr⟩
  · rw [hw]; exact h
  · rw [hr]
    intro c hc
    simp only [Option.some.injEq] at hc
    subst hc
    exact hl

theorem read_writeErr (U : Unicode) (w : World) (now : Int) (args : List GoString) :
    (Read U w now args).2.writeErr = w.writeErr := by
  rcases read_world U w now args with hw | ⟨u, -, hr⟩
  · rw [hw]
  · rw [hr]

theorem get_world (U : Unicode) (w : World) (now later : Int) (args : List GoString) :
    (Get U w now later args).2 = w ∨
      (Get U w now later args).2 = (Read U w later [sfFilePath args]).2 := by
  by_cases hm : Misses w (sfFilePath args) now
  · right
    rw [get_miss U w now later args hm]
  · left
    simp only [Misses, not_or, not_exists, not_and, not_lt] at hm
    rcases hc : w.current with _ | c
    · exact absurd hc hm.1
    · have h2 := hm.2 c hc
      have hp : c.filePath = sfFilePath args := by
        by_contra hne
        exact h2.1 hne
      rw [get_hit U w now later args c hc hp h2.2]

theorem get_coherent (U : Unicode) (w : World) (now later : Int) (args : List GoString)
    (h : Coherent U w) : Coherent U (Get U w now later args).2 := by
  rcases get_world U w now later args with hw | hw
  · rw [hw]; exact h
  · rw [hw]; exact read_coherent U w later _ h

theorem get_writeErr (U : Unicode) (w : World) (now later : Int) (args : List GoString) :
    (Get U w now later args).2.writeErr = w.writeErr := by
  rcases get_world U w now later args with hw | hw
  · rw [hw]
  · rw [hw, read_writeErr]

theorem writeNew_writeErr (w : World) (rnd : UUID) (fname : GoString) :
    (WriteNew w rnd fname).2.writeErr = w.writeErr := by
  rcases hc : w.createErr fname with _ | e
  · rcases hw : w.writeErr fname with _ | ⟨k, e⟩
    · simp [WriteNew, hc, hw, InvalidateCache]
    · simp [WriteNew, hc, hw]
  · simp [WriteNew, hc]

theorem writeNew_coherent (U : Unicode) (w : World) (rnd : UUID) (fname : GoString)
    (hw : w.writeErr fname = none) (h : Coherent U w) :
    Coherent U (WriteNew w rnd fname).2 := by
  rcases hc : w.createErr fname with _ | e
  · rw [writeNew_ok w rnd fname hc hw]
    intro c hcur
    simp at hcur
  · simp only [WriteNew, hc]
    exact h

theorem make_world (U : Unicode) (w : World) (rnd : UUID) (t1 t2 t3 t4 : Int)
    (args : List GoString) :
    (Make U w rnd t1 t2 t3 t4 args).2 = (Get U w t1 t2 [sfFilePath args]).2 ∨
    (Make U w rnd t1 t2 t3 t4 args).2 =
      (WriteNew (Get U w t1 t2 [sfFilePath args]).2 rnd (sfFilePath args)).2 ∨
    (Make U w rnd t1 t2 t3 t4 args).2 =
      (Get U (WriteNew (Get U w t1 t2 [sfFilePath args]).2 rnd (sfFilePath args)).2 t3 t4
        [sfFilePath args]).2 := by
  rcases hg : Get U w t1 t2 [sfFilePath args] with ⟨⟨u, _ | err⟩, w0⟩
  · left
    simp only [Make, hg]
  · cases err with
    | pathError op p errno =>
      by_cases hop : op = "open"
      · rcases hwn : WriteNew w0 rnd (sfFilePath args) with ⟨_ | e2, w2⟩
        · right; right
          simp only [Make, hg, hop, if_true, hwn]
        · right; left
          simp only [Make, hg, hop, if_true, hwn]
      · left
        simp only [Make, hg, hop, if_false]
    | eof => left; simp only [Make, hg]
    | tooSmall p => left; simp only [Make, hg]
    | notValid s => left; simp only [Make, hg]
    | hexFailed a b c => left; simp only [Make, hg]

theorem make_writeErr (U : Unicode) (w : World) (rnd : UUID) (t1 t2 t3 t4 : Int)
    (args : List GoString) : (Make U w rnd t1 t2 t3 t4 args).2.writeErr = w.writeErr := by
  rcases make_world U w rnd t1 t2 t3 t4 args with h | h | h
  · rw [h, get_writeErr]
  · rw [h, writeNew_writeErr, get_writeErr]
  · rw [h, get_writeErr, writeNew_writeErr, get_writeErr]

theorem make_coherent (U : Unicode) (w : World) (rnd : UUID) (t1 t2 t3 t4 : Int)
    (args : List GoString) (hw : ∀ p, w.writeErr p = none) (h : Coherent U w) :
    Coherent U (Make U w rnd t1 t2 t3 t4 args).2 := by
  have hg := get_coherent U w t1 t2 [sfFilePath args] h
  have hgw : (Get U w t1 t2 [sfFilePath args]).2.writeErr (sfFilePath args) = none := by
    rw [get_writeErr]; exact hw _
  rcases make_world U w rnd t1 t2 t3 t4 args with e | e | e
  · rw [e]; exact hg
  · rw [e]; exact writeNew_coherent U _ rnd _ hgw hg
  · rw [e]; exact get_coherent U _ t3 t4 _ (writeNew_coherent U _ rnd _ hgw hg)

theorem op_invariant (U : Unicode) (w : World) (op : Op) (hw : ∀ p, w.writeErr p = none)
    (h : Coherent U w) :
    Coherent U (op.run U w) ∧ ∀ p, (op.run U w).writeErr p = none := by
  cases op with
  | get now later args =>
    exact ⟨get_coherent U w now later args h, fun p => by
      simp only [Op.run, get_writeErr]; exact hw p⟩
  | read now args =>
    exact ⟨read_coherent U w now args h, fun p => by
      simp only [Op.run, read_writeErr]; exact hw p⟩
  | make rnd t1 t2 t3 t4 args =>
    exact ⟨make_coherent U w rnd t1 t2 t3 t4 args hw h, fun p => by
      simp only [Op.run, make_writeErr]; exact hw p⟩
  | writeNew rnd fname =>
    exact ⟨writeNew_coherent U w rnd fname (hw fname) h, fun p => by
      simp only [Op.run, writeNew_writeErr]; exact hw p⟩
  | invalidateCache =>
    exact ⟨fun c hc => by simp [Op.run, InvalidateCache] at hc, hw⟩

theorem runOps_invariant (U : Unicode) (ops : List Op) :
    ∀ w : World, (∀ p, w.writeErr p = none) → Coherent U w →
      Coherent U (runOps U w ops) ∧ ∀ p, (runOps U w ops).writeErr p = none := by
  induction ops with
  | nil => intro w hw h; exact ⟨h, hw⟩
  | cons op ops ih =>
    intro w hw h
    have h1 := op_invariant U w op hw h
    exact ih (op.run U w) h1.2 h1.1

theorem hit_agrees (U : Unicode) (w : World) (h : Coherent U w) (args : List GoString)
    (now later t : Int) (c : cache) (hc : w.current = some c)
    (hp : c.filePath = sfFilePath args) (ht : now ≤ c.validationTime) :
    (Get U w now later args).1 = (some c.uuid, none) ∧
      (Read U w t args).1 = (some c.uuid, none) := by
  refine ⟨by rw [get_hit U w now later args c hc hp ht], ?_⟩
  rw [read_loads U w t args c.uuid (hp ▸ h c hc)]

theorem make_keeps_other_errors (U : Unicode) (w : World) (rnd : UUID) (t1 t2 t3 t4 : Int)
    (args : List GoString) (err : Error)
    (hg : (Get U w t1 t2 [sfFilePath args]).1.2 = some err)
    (hne : ∀ p errno, err ≠ .pathError "open" p errno) :
    Make U w rnd t1 t2 t3 t4 args = ((none, some err), w) := by
  have hw : (Get U w t1 t2 [sfFilePath args]).2 = w := by
    rcases get_world U w t1 t2 [sfFilePath args] with h | h
    · exact h
    · rw [h]
      apply read_error_world
      by_cases hm : Misses w (sfFilePath args) t1
      · rw [get_miss U w t1 t2 [sfFilePath args] hm] at hg
        simp only [sfFilePath_idem] at hg ⊢
        rw [hg]; simp
      · exfalso
        simp only [Misses, not_or, not_exists, not_and, not_lt] at hm
        rcases hc : w.current with _ | c
        · exact absurd hc hm.1
        · have h2 := hm.2 c hc
          have hp : c.filePath = sfFilePath args := by
            by_contra hne
            exact h2.1 hne
          rw [get_hit U w t1 t2 [sfFilePath args] c hc hp h2.2] at hg
          simp at hg
  rcases hgr : Get U w t1 t2 [sfFilePath args] with ⟨⟨u, e⟩, w0⟩
  rw [hgr] at hg hw
  simp only at hg hw
  subst hg hw
  cases err with
  | pathError op p errno =>
    have hop : op ≠ "open" := fun h => hne p errno (by rw [h])
    simp only [Make, hgr, if_neg hop]
  | eof => simp only [Make, hgr]
  | tooSmall p => simp only [Make, hgr]
  | notValid s => simp only [Make, hgr]
  | hexFailed a b c => simp only [Make, hgr]

/-! ## Lemmas on interleavings -/

theorem get_as_steps (U : Unicode) (w : World) (now later : Int) (fpath : GoString) :
    (Call.step U fpath later (Call.step U fpath now w .start).2
        (Call.step U fpath now w .start).1)
      = (.returned (Get U w now later [fpath]).1, (Get U w now later [fpath]).2) := by
  rcases hc : w.current with _ | c
  · simp [Call.step, Get, hc, sfFilePath]
  · by_cases h : c.filePath ≠ fpath ∨ c.validationTime < now
    · simp only [Call.step, Get, hc, sfFilePath, if_pos h]
    · simp only [Call.step, Get, hc, sfFilePath, if_neg h]

theorem interleave_snoc (U : Unicode) (fpath : GoString) (s : Threads)
    (sched : List (Nat × Int)) (e : Nat × Int) :
    interleave U fpath s (sched ++ [e]) = (interleave U fpath s sched).step U fpath e := by
  simp [interleave, List.foldl_append]

theorem safe_step (U : Unicode) (w : World) (fpath : GoString) (u : UUID)
    (hl : Loads U w fpath u)
    (hun : w.current = none ∨ ∃ c, w.current = some c ∧ c.filePath ≠ fpath)
    (s : Threads) (e : Nat × Int) (h : Safe w fpath u s) :
    Safe w fpath u (s.step U fpath e) := by
  obtain ⟨hf, hcur, hret⟩ := h
  have hls : Loads U s.world fpath u := by
    obtain ⟨content, h1, h2, h3⟩ := hl
    exact ⟨content, by rw [hf]; exact h1, h2, h3⟩
  have hrd := read_loads U s.world e.2 [fpath] u hls
  simp only [sfFilePath_singleton] at hrd
  rcases hci : s.calls e.1 with _ | _ | r
  · -- the load
    have hw : ((Call.start).step U fpath e.2 s.world).2 = s.world := by
      simp only [Call.step]
      split
      · rfl
      · split_ifs <;> rfl
    refine ⟨by simp only [Threads.step, hci, hw]; exact hf,
      by simp only [Threads.step, hci, hw]; exact hcur, ?_⟩
    intro i r hr
    simp only [Threads.step, hci, Function.update_apply] at hr
    split_ifs at hr with hie
    · simp only [Call.step] at hr
      rcases hc : s.world.current with _ | c
      · rw [hc] at hr; simp at hr
      · rw [hc] at hr
        simp only at hr
        split_ifs at hr with hmiss
        simp only [Call.returned.injEq] at hr
        rw [← hr]
        simp only [not_or, not_not, not_lt] at hmiss
        rcases hcur with h0 | ⟨t, ht⟩
        · rcases hun with hn | ⟨c0, hc0, hne⟩
          · rw [h0, hn] at hc; simp at hc
          · rw [h0, hc0] at hc
            simp only [Option.some.injEq] at hc
            subst hc
            exact absurd hmiss.1 hne
        · rw [ht] at hc
          simp only [Option.some.injEq] at hc
          subst hc
          rfl
    · exact hret i r hr
  · -- the store at the end of `Read`
    refine ⟨by simp only [Threads.step, hci, Call.step, hrd]; exact hf,
      Or.inr ⟨e.2, by simp only [Threads.step, hci, Call.step, hrd]⟩, ?_⟩
    intro i r hr
    simp only [Threads.step, hci, Function.update_apply, Call.step, hrd] at hr
    split_ifs at hr with hie
    · simp only [Call.returned.injEq] at hr
      exact hr.symm
    · exact hret i r hr
  · refine ⟨by simp only [Threads.step, hci, Call.step]; exact hf,
      by simp only [Threads.step, hci, Call.step]; exact hcur, ?_⟩
    intro i r' hr
    simp only [Threads.step, hci, Function.update_apply, Call.step] at hr
    split_ifs at hr with hie
    · simp only [Call.returned.injEq] at hr
      subst hr
      exact hret e.1 r hci
    · exact hret i r' hr

theorem safe_interleave (U : Unicode) (w : World) (fpath : GoString) (u : UUID)
    (hl : Loads U w fpath u)
    (hun : w.current = none ∨ ∃ c, w.current = some c ∧ c.filePath ≠ fpath)
    (sched : List (Nat × Int)) :
    Safe w fpath u (interleave U fpath (Threads.init w) sched) := by
  induction sched using List.reverseRecOn with
  | nil => exact ⟨rfl, Or.inl rfl, fun i r hr => by simp [interleave, Threads.init] at hr⟩
  | append_singleton sched e ih =>
    rw [interleave_snoc]
    exact safe_step U w fpath u hl hun _ e ih

theorem progress_interleave (U : Unicode) (w : World) (fpath : GoString)
    (sched : List (Nat × Int)) (i : Nat) :
    (1 ≤ stepsOf sched i → (interleave U fpath (Threads.init w) sched).calls i ≠ .start) ∧
    (2 ≤ stepsOf sched i →
      ∃ r, (interleave U fpath (Threads.init w) sched).calls i = .returned r) := by
  induction sched using List.reverseRecOn with
  | nil => simp [stepsOf]
  | append_singleton sched e ih =>
    rw [interleave_snoc]
    have hcount : stepsOf (sched ++ [e]) i = stepsOf sched i + (if e.1 = i then 1 else 0) := by
      simp only [stepsOf, List.map_append, List.map_cons, List.map_nil, List.count_append,
        List.count_singleton, beq_iff_eq]
    rw [hcount]
    by_cases hei : e.1 = i
    · subst hei
      simp only [if_true, Threads.step, Function.update_same]
      have hne : ∀ c : Call, c.step U fpath e.2 (interleave U fpath (Threads.init w) sched).world
          ≠ (.start, (c.step U fpath e.2
              (interleave U fpath (Threads.init w) sched).world).2) := by
        intro c hc
        have : (c.step U fpath e.2 (interleave U fpath (Threads.init w) sched).world).1
            = .start := by rw [hc]
        cases c with
        | start =>
          simp only [Call.step] at this
          split at this
          · simp at this
          · split_ifs at this
        | missed => simp [Call.step] at this
        | returned r => simp [Call.step] at this
      constructor
      · intro _ h0
        exact hne _ (Prod.ext h0 rfl)
      · intro h2
        have h1 := ih.1 (by omega)
        rcases hc : (interleave U fpath (Threads.init w) sched).calls e.1 with _ | _ | r
        · exact absurd hc h1
        · exact ⟨_, rfl⟩
        · exact ⟨r, rfl⟩
    · simp only [if_neg hei, add_zero, Threads.step, Function.update_apply,
        if_neg (Ne.symm hei)]
      exact ih

/-! ## Lemmas on `Gen` and on the table `decoder` -/

theorem Gen_explicit (b0 b1 b2 b3 b4 b5 b6 b7 b8 b9 b10 b11 b12 b13 b14 b15 : Byte)
    (h : [b0, b1, b2, b3, b4, b5, b6, b7, b8, b9, b10, b11, b12, b13, b14, b15].length = 16) :
    Gen ⟨[b0, b1, b2, b3, b4, b5, b6, b7, b8, b9, b10, b11, b12, b13, b14, b15], h⟩ =
      ⟨[b0, b1, b2, b3, b4, b5, (b6 &&& 0x0F) ||| 0x40, b7, (b8 ||| 0x40) &&& 0x7F, b9, b10,
        b11, b12, b13, b14, b15], rfl⟩ := rfl

theorem gen_bytes (rnd : UUID) :
    (Gen rnd).get 6 = (rnd.get 6 &&& 0x0F) ||| 0x40 ∧
      (Gen rnd).get 8 = (rnd.get 8 ||| 0x40) &&& 0x7F ∧
      ∀ i : Fin 16, i ≠ 6 → i ≠ 8 → (Gen rnd).get i = rnd.get i := by
  obtain ⟨l, hl⟩ := rnd
  obtain ⟨b0, b1, b2, b3, b4, b5, b6, b7, b8, b9, b10, b11, b12, b13, b14, b15, rfl⟩ :=
    list16 l hl
  rw [Gen_explicit]
  refine ⟨rfl, rfl, ?_⟩
  intro i h6 h8
  fin_cases i <;> first | rfl | exact absurd rfl h6 | exact absurd rfl h8

theorem version_nibble : ∀ b : Byte,
    (((b &&& 0x0F) ||| 0x40 : Byte)).val / 16 = 4 ∧
      (((b &&& 0x0F) ||| 0x40 : Byte)).val % 16 = b.val % 16 := by decide

theorem variant_bits : ∀ b : Byte, ((((b ||| 0x40) &&& 0x7F : Byte)).val / 64 = 1) := by decide

theorem decoder_bounds : ∀ d ∈ decoder,
    d.sLeft ≤ d.sRight ∧ d.sRight ≤ 36 ∧ d.bLeft ≤ d.bRight ∧ d.bRight ≤ 16 ∧
      d.sRight - d.sLeft = 2 * (d.bRight - d.bLeft) := by decide

theorem decoder_cover :
    decoder.flatMap (fun d => List.range' d.bLeft (d.bRight - d.bLeft)) = List.range 16 := by
  decide

theorem hexDecode_segments (n : GoString) (h : Canonical n) :
    ∀ d ∈ decoder, (hexDecode (slice n d.sLeft d.sRight)).2 = none ∧
      (hexDecode (slice n d.sLeft d.sRight)).1.length = d.bRight - d.bLeft := by
  obtain ⟨c0, c1, c2, c3, c4, c5, c6, c7, c8, c9, c10, c11, c12, c13, c14, c15, c16, c17, c18, c19,
      c20, c21, c22, c23, c24, c25, c26, c27, c28, c29, c30, c31, c32, c33, c34, c35, rfl⟩ := list36 n h.1
  rw [Canonical_explicit] at h
  obtain ⟨h0, h1, h2, h3, h4, h5, h6, h7, h8, h9, h10, h11, h12, h13, h14, h15, h16, h17, h18, h19,
      h20, h21, h22, h23, h24, h25, h26, h27, h28, h29, h30, h31, h32, h33, h34, h35⟩ := h
  intro d hd
  simp only [decoder, List.mem_cons, List.mem_singleton, List.not_mem_nil, or_false] at hd
  rcases hd with rfl | rfl | rfl | rfl | rfl <;>
    (simp only [slice, List.take, List.drop]
     rw [hexDecode_of_lower _ (by simp [*]) (by simp)]
     exact ⟨rfl, rfl⟩)

theorem decode_never_both (U : Unicode) (s : GoString) :
    (∃ u, Decode U s = (some u, none)) ∨ (∃ e, Decode U s = (none, some e)) := by
  by_cases hc : Canonical (ToLower U (TrimSpace U s))
  · exact Or.inl ((decode_accepts U s).mpr hc)
  · exact Or.inr ⟨_, Decode_eq_of_not_canonical U s hc⟩

/-! ## Creating and regenerating the file -/

/-- Counterexample to C11 as stated: no file exists at the path and it can be
created and written, but the slot holds an unexpired snapshot for the path;
`Make` answers from the cache and creates nothing. -/
theorem Make_answers_from_cache_without_file :
    (noFile (some cachedUntil10)).files examplePath = .openFails ENOENT ∧
      (noFile (some cachedUntil10)).createErr examplePath = none ∧
      (noFile (some cachedUntil10)).writeErr examplePath = none ∧
      (Make Unicode.inert (noFile (some cachedUntil10)) zeroUUID 5 5 5 5 [examplePath]).1
        = (some uuid1, none) ∧
      (Make Unicode.inert (noFile (some cachedUntil10)) zeroUUID 5 5 5 5 [examplePath]).2.files
          examplePath
        = .openFails ENOENT := by
  decide

/-- Claim C11, amended: when no file exists at the path, the file can be
created and written, and the cache does not answer for the path (slot empty,
other path, or expired), `Make(path)` succeeds with the generated identifier
and afterwards the file at the path holds exactly `Encode` of it. -/
theorem Make_creates_when_absent (U : Unicode) (w : World) (rnd : UUID) (t1 t2 t3 t4 : Int)
    (args : List GoString)
    (hfile : w.files (sfFilePath args) = .openFails ENOENT)
    (hc : w.createErr (sfFilePath args) = none) (hw : w.writeErr (sfFilePath args) = none)
    (hmiss : Misses w (sfFilePath args) t1) :
    (Make U w rnd t1 t2 t3 t4 args).1 = (some (Gen rnd), none) ∧
      (Make U w rnd t1 t2 t3 t4 args).2.files (sfFilePath args)
        = .file (Encode (some (Gen rnd))) := by
  rw [make_creates U w rnd t1 t2 t3 t4 args ENOENT hfile hc hw hmiss]
  exact ⟨rfl, by simp [written]⟩

/-- Witness of C11: no file, an expired entry in the slot, clock at 20. -/
theorem Make_creates_when_absent_witness :
    (noFile (some cachedUntil10)).files (sfFilePath [examplePath]) = .openFails ENOENT ∧
      Misses (noFile (some cachedUntil10)) (sfFilePath [examplePath]) 20 ∧
      (Make Unicode.inert (noFile (some cachedUntil10)) zeroUUID 20 21 22 23 [examplePath]).1
        = (some (Gen zeroUUID), none) ∧
      (Make Unicode.inert (noFile (some cachedUntil10)) zeroUUID 20 21 22 23
          [examplePath]).2.files (sfFilePath [examplePath])
        = .file (Encode (some (Gen zeroUUID))) :=
  ⟨rfl, Or.inr ⟨cachedUntil10, rfl, Or.inr (by decide)⟩,
    Make_creates_when_absent Unicode.inert (noFile (some cachedUntil10)) zeroUUID 20 21 22 23
      [examplePath] rfl rfl rfl (Or.inr ⟨cachedUntil10, rfl, Or.inr (by decide)⟩)⟩

/-- Counterexample to C12 as stated: the slot holds `uuid1` for a path whose
file is gone. `Make` at instant 5 returns `uuid1` from the cache; `Make` again
at instant 20, after the entry expired, finds no file, generates another
identifier and writes it. -/
theorem Make_regenerates_after_stale_hit :
    (Make Unicode.inert (noFile (some cachedUntil10)) zeroUUID 5 5 5 5 [examplePath]).1
        = (some uuid1, none) ∧
      (Make Unicode.inert
          (Make Unicode.inert (noFile (some cachedUntil10)) zeroUUID 5 5 5 5 [examplePath]).2
          zeroUUID 20 20 20 20 [examplePath]).1
        = (some (Gen zeroUUID), none) ∧
      Gen zeroUUID ≠ uuid1 ∧
      (Make Unicode.inert
          (Make Unicode.inert (noFile (some cachedUntil10)) zeroUUID 5 5 5 5 [examplePath]).2
          zeroUUID 20 20 20 20 [examplePath]).2.files examplePath
        = .file (Encode (some (Gen zeroUUID))) := by
  decide

/-- Claim C12, amended: in a state whose cache agrees with the file system (a
snapshot in the slot names a path whose file loads to the snapshot's
identifier), if `Make(path)` returns `A`, then `Make(path)` on the state it
leaves returns `A` again at any clock readings and for any random bytes, and
leaves every file as it was. -/
theorem Make_idempotent_when_coherent (U : Unicode) (w : World) (rnd : UUID)
    (t1 t2 t3 t4 : Int) (args : List GoString) (A : UUID) (w1 : World)
    (hco : Coherent U w) (h : Make U w rnd t1 t2 t3 t4 args = ((some A, none), w1))
    (rnd2 : UUID) (s1 s2 s3 s4 : Int) :
    (Make U w1 rnd2 s1 s2 s3 s4 args).1 = (some A, none) ∧
      (Make U w1 rnd2 s1 s2 s3 s4 args).2.files = w1.files := by
  obtain ⟨w2, hm, hf, -⟩ :=
    make_settled U w1 rnd2 s1 s2 s3 s4 args A (make_ok U w rnd t1 t2 t3 t4 args A w1 hco h)
  rw [hm]
  exact ⟨rfl, hf⟩

/-- Witness of C12: starting with no file and an empty slot, `Make` creates the
file; a second `Make`, long after the entry expired and with other random
bytes, returns the same identifier. -/
theorem Make_idempotent_when_coherent_witness :
    Coherent Unicode.inert (noFile none) ∧
      Make Unicode.inert (noFile none) zeroUUID 1 2 3 4 [examplePath]
        = ((some (Gen zeroUUID), none),
            (Make Unicode.inert (noFile none) zeroUUID 1 2 3 4 [examplePath]).2) ∧
      (Make Unicode.inert (Make Unicode.inert (noFile none) zeroUUID 1 2 3 4 [examplePath]).2
          uuid1 1000000000000 1000000000001 1000000000002 1000000000003 [examplePath]).1
        = (some (Gen zeroUUID), none) ∧
      (Make Unicode.inert (Make Unicode.inert (noFile none) zeroUUID 1 2 3 4 [examplePath]).2
          uuid1 1000000000000 1000000000001 1000000000002 1000000000003 [examplePath]).2.files
        = (Make Unicode.inert (noFile none) zeroUUID 1 2 3 4 [examplePath]).2.files :=
  ⟨fun c hc => by simp [noFile] at hc, Prod.ext (by decide) rfl,
    Make_idempotent_when_coherent Unicode.inert (noFile none) zeroUUID 1 2 3 4 [examplePath]
      (Gen zeroUUID) _ (fun c hc => by simp [noFile] at hc) (Prod.ext (by decide) rfl) uuid1
      1000000000000 1000000000001 1000000000002 1000000000003⟩

/-- Claim C13, the code at two failing inputs. First: the path cannot be opened
for a reason other than absence (`EMFILE`) and `os.Create` succeeds; `Get` fails
with the open error, but `Make` writes a fresh identifier over the path and
returns it. Second: opening fails with `EACCES` and `os.Create` fails with
`EISDIR`; `Make` returns the error of `os.Create`, not the error `Get` gave.
For every error of `Get` that is not an open failure (read failure, end of
file, too small, malformed) `Make` does return it and changes nothing. -/
theorem Make_writes_on_any_open_failure :
    (EMFILE ≠ ENOENT ∧
      (Get Unicode.inert (blocked EMFILE none none) 1 2 [examplePath]).1
        = (none, some (.pathError "open" examplePath EMFILE)) ∧
      (Make Unicode.inert (blocked EMFILE none none) zeroUUID 1 2 3 4 [examplePath]).1
        = (some (Gen zeroUUID), none) ∧
      (Make Unicode.inert (blocked EMFILE none none) zeroUUID 1 2 3 4 [examplePath]).2.files
          examplePath
        = .file (Encode (some (Gen zeroUUID)))) ∧
    (EACCES ≠ ENOENT ∧
      (Get Unicode.inert (blocked EACCES (some EISDIR) none) 1 2 [examplePath]).1
        = (none, some (.pathError "open" examplePath EACCES)) ∧
      (Make Unicode.inert (blocked EACCES (some EISDIR) none) zeroUUID 1 2 3 4
          [examplePath]).1
        = (none, some (.pathError "open" examplePath EISDIR))) ∧
    ∀ (U : Unicode) (w : World) (rnd : UUID) (t1 t2 t3 t4 : Int) (args : List GoString)
      (err : Error), (Get U w t1 t2 [sfFilePath args]).1.2 = some err →
      (∀ p errno, err ≠ .pathError "open" p errno) →
      Make U w rnd t1 t2 t3 t4 args = ((none, some err), w) :=
  ⟨by decide, by decide, make_keeps_other_errors⟩

/-- Claim C14: `WriteNew(path)` succeeds exactly when `os.Create` and the write
succeed; then the file at the path holds exactly `Encode` of the generated
identifier, 36 characters of canonical text, every other path is as before, and
the slot is empty; when `WriteNew` returns an error the slot is as before. -/
theorem WriteNew_postcondition (w : World) (rnd : UUID) (fname : GoString) :
    ((WriteNew w rnd fname).1 = none ↔
        w.createErr fname = none ∧ w.writeErr fname = none) ∧
      ((WriteNew w rnd fname).1 = none →
        (WriteNew w rnd fname).2.files fname = .file (Encode (some (Gen rnd))) ∧
          Canonical (Encode (some (Gen rnd))) ∧
          (∀ p, p ≠ fname → (WriteNew w rnd fname).2.files p = w.files p) ∧
          (WriteNew w rnd fname).2.current = none) ∧
      ((WriteNew w rnd fname).1 ≠ none → (WriteNew w rnd fname).2.current = w.current) := by
  refine ⟨writeNew_ok_iff w rnd fname, ?_, writeNew_err_current w rnd fname⟩
  intro h
  obtain ⟨hc, hw⟩ := (writeNew_ok_iff w rnd fname).mp h
  rw [writeNew_ok w rnd fname hc hw]
  exact ⟨by simp [written], (encode_format (Gen rnd)).1,
    fun p hp => by simp [written, hp], rfl⟩

/-- Claim C15: after a successful `WriteNew(path)` that generated `B`, the next
`Get(path)` returns `B`, whatever the slot held before, and leaves the slot
holding `B` for the path. -/
theorem Get_after_WriteNew (U : Unicode) (w : World) (rnd : UUID) (fname : GoString)
    (now later : Int) (h : (WriteNew w rnd fname).1 = none) :
    (Get U (WriteNew w rnd fname).2 now later [fname]).1 = (some (Gen rnd), none) ∧
      (Get U (WriteNew w rnd fname).2 now later [fname]).2.current
        = some ⟨Gen rnd, fname, later + ValidationTimePeriod⟩ := by
  obtain ⟨hc, hw⟩ := (writeNew_ok_iff w rnd fname).mp h
  rw [get_after_writeNew U w rnd fname now later hc hw]
  exact ⟨rfl, rfl⟩

/-- Witness of C15: the file holds `uuid1` and the slot holds a snapshot of
`uuid1` valid until instant 1000; after `WriteNew`, `Get` at instant 5 returns
the new identifier. -/
theorem Get_after_WriteNew_witness :
    (WriteNew (oneFile uuidStr1 (some ⟨uuid1, examplePath, 1000⟩)) zeroUUID examplePath).1
        = none ∧
      Gen zeroUUID ≠ uuid1 ∧
      ((Get Unicode.inert
            (WriteNew (oneFile uuidStr1 (some ⟨uuid1, examplePath, 1000⟩)) zeroUUID
              examplePath).2 5 6 [examplePath]).1
          = (some (Gen zeroUUID), none) ∧
        (Get Unicode.inert
            (WriteNew (oneFile uuidStr1 (some ⟨uuid1, examplePath, 1000⟩)) zeroUUID
              examplePath).2 5 6 [examplePath]).2.current
          = some ⟨Gen zeroUUID, examplePath, 6 + ValidationTimePeriod⟩) :=
  ⟨by decide, by decide,
    Get_after_WriteNew Unicode.inert (oneFile uuidStr1 (some ⟨uuid1, examplePath, 1000⟩))
      zeroUUID examplePath 5 6 (by decide)⟩

/-! ## Generated identifiers -/

/-- Claim C16: as a function of the sixteen random bytes `r`, `Gen` returns `u`
with `u[6] = (r[6] & 0x0F) | 0x40` (high nibble 4, low nibble that of `r[6]`),
`u[8] = (r[8] | 0x40) & 0x7F`, and `u[i] = r[i]` at every other index. -/
theorem Gen_bit_pattern (rnd : UUID) :
    (Gen rnd).get 6 = (rnd.get 6 &&& 0x0F) ||| 0x40 ∧
      ((Gen rnd).get 6).val / 16 = 4 ∧
      ((Gen rnd).get 6).val % 16 = (rnd.get 6).val % 16 ∧
      (Gen rnd).get 8 = (rnd.get 8 ||| 0x40) &&& 0x7F ∧
      ∀ i : Fin 16, i ≠ 6 → i ≠ 8 → (Gen rnd).get i = rnd.get i := by
  obtain ⟨h6, h8, hi⟩ := gen_bytes rnd
  refine ⟨h6, ?_, ?_, h8, hi⟩
  · rw [h6]; exact (version_nibble _).1
  · rw [h6]; exact (version_nibble _).2

/-- Claim C17, the code at every input: the high nibble of byte 6 is `0100`,
but the two most significant bits of byte 8 are `01`, never the `10` of
RFC 4122; for the all-zero random bytes byte 8 is `0x40`. -/
theorem Gen_variant_bits (rnd : UUID) :
    ((Gen rnd).get 6).val / 16 = 4 ∧
      ((Gen rnd).get 8).val / 64 = 1 ∧
      ((Gen rnd).get 8).val / 64 ≠ 2 ∧
      (Gen zeroUUID).get 8 = 0x40 := by
  obtain ⟨h6, h8, -⟩ := gen_bytes rnd
  have hv : ((Gen rnd).get 8).val / 64 = 1 := by rw [h8]; exact variant_bits _
  refine ⟨?_, hv, by rw [hv]; decide, by decide⟩
  rw [h6]; exact (version_nibble _).1

/-! ## Concurrency and coherence -/

/-- Claim C18: when the file at the path loads to `u` and the slot holds no
snapshot for the path, then after any interleaving of the atomic steps of any
number of `Get(path)` calls every call that returned returned `u`, every call
that took its two steps has returned, the slot is as it was at the start or
holds one snapshot `{u, path, t + ValidationTimePeriod}` stored by one call,
and the files are untouched. A call running alone takes exactly the steps of
`Get`. -/
theorem Get_concurrent_misses (U : Unicode) (w : World) (fpath : GoString) (u : UUID)
    (hl : Loads U w fpath u)
    (hun : w.current = none ∨ ∃ c, w.current = some c ∧ c.filePath ≠ fpath)
    (sched : List (Nat × Int)) :
    (∀ i r, (interleave U fpath (Threads.init w) sched).calls i = .returned r →
        r = (some u, none)) ∧
      (∀ i, 2 ≤ stepsOf sched i →
        (interleave U fpath (Threads.init w) sched).calls i = .returned (some u, none)) ∧
      ((interleave U fpath (Threads.init w) sched).world.current = w.current ∨
        ∃ t : Int, (interleave U fpath (Threads.init w) sched).world.current
          = some ⟨u, fpath, t + ValidationTimePeriod⟩) ∧
      (interleave U fpath (Threads.init w) sched).world.files = w.files ∧
      ∀ (w0 : World) (now later : Int),
        Call.step U fpath later (Call.step U fpath now w0 .start).2
            (Call.step U fpath now w0 .start).1
          = (.returned (Get U w0 now later [fpath]).1, (Get U w0 now later [fpath]).2) := by
  obtain ⟨hf, hcur, hret⟩ := safe_interleave U w fpath u hl hun sched
  refine ⟨hret, ?_, hcur, hf, fun w0 now later => get_as_steps U w0 now later fpath⟩
  intro i h2
  obtain ⟨r, hr⟩ := (progress_interleave U w fpath sched i).2 h2
  rw [hr, hret i r hr]

/-- Witness of C18: the file holds `uuid1`, the slot is empty, and two calls
interleave so that both miss before either stores. -/
theorem Get_concurrent_misses_witness :
    Loads Unicode.inert (oneFile uuidStr1 none) examplePath uuid1 ∧
      2 ≤ stepsOf [(0, 1), (1, 1), (0, 2), (1, 3)] 1 ∧
      (interleave Unicode.inert examplePath (Threads.init (oneFile uuidStr1 none))
          [(0, 1), (1, 1), (0, 2), (1, 3)]).calls 1 = .returned (some uuid1, none) :=
  ⟨⟨uuidStr1, by decide, by decide, by decide⟩, by decide,
    (Get_concurrent_misses Unicode.inert (oneFile uuidStr1 none) examplePath uuid1
      ⟨uuidStr1, by decide, by decide, by decide⟩ (Or.inl rfl)
      [(0, 1), (1, 1), (0, 2), (1, 3)]).2.1 1 (by decide)⟩

/-- Claim C19: starting from an empty slot, after any sequence of `Get`,
`Read`, `Make`, `WriteNew` and `InvalidateCache` calls (any paths, clock
readings and random bytes) in a world where a write that starts completes, a
snapshot in the slot names a path whose file loads to the snapshot's
identifier; hence a cache hit of `Get` returns what `Read` returns then. -/
theorem cache_coherence (U : Unicode) (w0 : World) (ops : List Op)
    (h0 : w0.current = none) (hw : ∀ p, w0.writeErr p = none) :
    Coherent U (runOps U w0 ops) ∧
      ∀ (args : List GoString) (now later t : Int) (c : cache),
        (runOps U w0 ops).current = some c → c.filePath = sfFilePath args →
        now ≤ c.validationTime →
        (Get U (runOps U w0 ops) now later args).1 = (some c.uuid, none) ∧
          (Read U (runOps U w0 ops) t args).1 = (some c.uuid, none) := by
  have hinv := (runOps_invariant U ops w0 hw
    (fun c hc => by rw [h0] at hc; simp at hc)).1
  exact ⟨hinv, fun args now later t c hc hp ht =>
    hit_agrees U _ hinv args now later t c hc hp ht⟩

/-- Witness of C19: from no file and an empty slot, `Make`, `Get`, `WriteNew`
and `Read` in turn. -/
theorem cache_coherence_witness :
    (noFile none).current = none ∧ (∀ p, (noFile none).writeErr p = none) ∧
      Coherent Unicode.inert
        (runOps Unicode.inert (noFile none)
          [.make zeroUUID 1 2 3 4 [examplePath], .get 5 6 [examplePath],
            .writeNew uuid1 examplePath, .read 7 [examplePath]]) :=
  ⟨rfl, fun _ => rfl,
    (cache_coherence Unicode.inert (noFile none)
      [.make zeroUUID 1 2 3 4 [examplePath], .get 5 6 [examplePath],
        .writeNew uuid1 examplePath, .read 7 [examplePath]] rfl (fun _ => rfl)).1⟩

/-- Claim C20: the slices the table `decoder` names lie within a 36-character
string and the 16-byte result, each source slice has twice the length of its
destination, and the destinations are the indices 0..15 in order, each once;
on a string whose normalised form passes the grammar each of the five
`hex.Decode` calls returns no error; so `Decode` returns an identifier and no
error, or an error and no identifier. -/
theorem Decode_hex_error_unreachable (U : Unicode) :
    (∀ d ∈ decoder,
        d.sLeft ≤ d.sRight ∧ d.sRight ≤ 36 ∧ d.bLeft ≤ d.bRight ∧ d.bRight ≤ 16 ∧
          d.sRight - d.sLeft = 2 * (d.bRight - d.bLeft)) ∧
      decoder.flatMap (fun d => List.range' d.bLeft (d.bRight - d.bLeft)) = List.range 16 ∧
      (∀ s : GoString, MatchString reMatch (ToLower U (TrimSpace U s)) = true →
        ∀ d ∈ decoder,
          (hexDecode (slice (ToLower U (TrimSpace U s)) d.sLeft d.sRight)).2 = none ∧
            (hexDecode (slice (ToLower U (TrimSpace U s)) d.sLeft d.sRight)).1.length
              = d.bRight - d.bLeft) ∧
      ∀ s : GoString,
        (∃ u, Decode U s = (some u, none)) ∨ (∃ e, Decode U s = (none, some e)) :=
  ⟨decoder_bounds, decoder_cover,
    fun _ h => hexDecode_segments _ ((MatchString_iff _).mp h), decode_never_both U⟩

end Snowflake
